import Mathlib

/-!
# Verification of the ChatSBOM core services

A shallow embedding, in Lean, of the core algorithms of the ChatSBOM
repository crawler pipeline:

* `chatsbom/core/storage.py` — the append-only deduplicating record store;
* `chatsbom/services/github_service.py` — reactive rate-limit handling with
  a one-hour circuit breaker;
* `chatsbom/services/git_service.py` — the ls-remote ref resolver with its
  TTL cache, annotated-tag dereference priority, and token masking;
* `chatsbom/services/commit_service.py` — release-tag resolution with
  default-branch fallback;
* `chatsbom/services/release_service.py` — release/tag merging and the
  latest-stable-release selection;
* `chatsbom/services/sbom_service.py` — the content-addressable SBOM cache;
* `chatsbom/services/search_service.py` — the exhaustive star-descent /
  time-slicing search crawler.

Python strings are modelled as Lean `String`s (with character-list helpers
mirroring `startswith`/`endswith`/slicing), machine integers as `Nat`/`Int`,
wall-clock instants as integral seconds, file systems and subprocesses as
explicit inputs, and Python exceptions as `Option`/sum results.  Loops
without a structural measure take an explicit fuel argument; the theorems
supply enough fuel for the code's actual termination argument.
-/

namespace ChatSBOM

/-! ## Storage (`chatsbom/core/storage.py`)

`Storage` keeps an in-memory set `visited_ids` of record identifiers and an
append-only JSONL file.  A record is abstracted to its numeric GitHub `id`
together with its serialized line. -/

/-- A record as persisted by `Storage`: its numeric id plus the serialized
JSON line (`repo.model_dump_json(...)`), abstracted to an opaque string. -/
structure Record where
  id : Nat
  line : String
deriving Repr, DecidableEq

/-- State of a `Storage` object (`core/storage.py`): the in-memory
`visited_ids` set, the on-disk file as the list of appended records, and
`min_stars_seen` as set by `_load_existing` (`none` models `float('inf')`,
the value for a fresh/empty file). -/
structure Storage where
  visited_ids : List Nat
  file : List Record
  min_stars_seen : Option Nat
deriving Repr, DecidableEq

/-- A freshly constructed `Storage` over a non-existent file. -/
def Storage.empty : Storage := ⟨[], [], none⟩

/-- `Storage.save` (`core/storage.py` lines 46-61): if the record id was
already seen return `False`; otherwise record the id, append one serialized
line to the file, flush, and return `True`.  Returns (newly written, state
after the call).  `min_stars_seen` is only written by `_load_existing`, so
`save` leaves it unchanged. -/
def Storage.save (st : Storage) (r : Record) : Bool × Storage :=
  if r.id ∈ st.visited_ids then (false, st)
  else (true,
    { st with
      visited_ids := r.id :: st.visited_ids
      file := st.file ++ [r] })

/-- Well-formedness of a `Storage` state: the file ids are exactly the
in-memory `visited_ids` (as sets) and the file never holds two records with
the same id.  `_load_existing` establishes this (it replays the file into
`visited_ids`); `Storage.empty` satisfies it trivially. -/
def Storage.Wf (st : Storage) : Prop :=
  (st.file.map Record.id).Nodup ∧
    ∀ i : Nat, i ∈ st.file.map Record.id ↔ i ∈ st.visited_ids

/-! ## GitHub REST rate limiting (`chatsbom/services/github_service.py`) -/

/-- A GitHub REST response as inspected by `_make_request` and
`_handle_api_rate_limit`: HTTP status, whether the body contains the
substring `'rate limit'` (lower-cased), and the two relevant headers.
Header values are integral epoch seconds / second counts; `none` models an
absent (falsy) header. -/
structure ApiResponse where
  status : Nat
  body_has_rate_limit : Bool
  x_ratelimit_reset : Option Int
  retry_after : Option Int
deriving Repr, DecidableEq

/-- Outcome of `_handle_api_rate_limit`: either the circuit breaker raised
`requests.RequestException` (no sleep happened), or the handler slept for
the given number of seconds and returned to the caller. -/
inductive RateLimitOutcome where
  | fatal
  | slept (seconds : Int)
deriving Repr, DecidableEq

/-- `_handle_api_rate_limit` (`services/github_service.py` lines 45-75):
wait is `reset - now + 1` when `X-RateLimit-Reset` is present, else
`Retry-After + 1` when present, else `60`; a negative wait is clamped to
`1`; a wait exceeding `3600` seconds raises (circuit breaker) without
sleeping, otherwise the handler sleeps for the wait. -/
def handle_api_rate_limit (now : Int) (r : ApiResponse) : RateLimitOutcome :=
  let wait0 : Int :=
    match r.x_ratelimit_reset with
    | some reset => reset - now + 1
    | none =>
      match r.retry_after with
      | some ra => ra + 1
      | none => 60
  let wait := if wait0 < 0 then 1 else wait0
  if wait > 3600 then .fatal else .slept wait

/-- The condition under which `_make_request` treats a response as a rate
limit: HTTP 429, or HTTP 403 whose body contains `'rate limit'`
(`services/github_service.py` lines 97-104). -/
def is_rate_limited (r : ApiResponse) : Bool :=
  r.status == 429 || (r.status == 403 && r.body_has_rate_limit)

/-- Result of the `_make_request` retry loop.  `raised` carries the sleeps
performed before the circuit-breaker exception propagated. -/
inductive MakeRequestResult where
  | raised (sleeps : List Int)
  | returned (r : ApiResponse) (sleeps : List Int)
  | starved
deriving Repr, DecidableEq

/-- `_make_request` (`services/github_service.py` lines 89-106): re-issue the
same request until a non-rate-limited response arrives.  The successive
responses of the session to the repeated identical request are supplied as a
list; `sleeps` accumulates the sleeps performed so far.  `.raised` models
the circuit-breaker exception propagating, `.starved` is an artifact of the
finite response stream (the real loop always gets another response). -/
def make_request (now : Int) : List ApiResponse → List Int → MakeRequestResult
  | [], _ => .starved
  | r :: rest, sleeps =>
    if is_rate_limited r then
      match handle_api_rate_limit now r with
      | .fatal => .raised sleeps
      | .slept w => make_request now rest (sleeps ++ [w])
    else .returned r sleeps

/-! ## String helpers

Character-level models of the Python `str` operations used by
`git_service.py` (`startswith`, `endswith`, slicing, `in`, `replace`). -/

/-- Python `s.startswith(p)`. -/
def str_starts_with (s p : String) : Bool := p.data.isPrefixOf s.data

/-- Python `s.endswith(p)`. -/
def str_ends_with (s p : String) : Bool := p.data.isSuffixOf s.data

/-- Python `s[n:]`. -/
def str_drop (s : String) (n : Nat) : String := ⟨s.data.drop n⟩

/-- Python `s[:-n]` for `0 < n ≤ len(s)` (drop the last `n` characters). -/
def str_drop_right (s : String) (n : Nat) : String :=
  ⟨s.data.take (s.data.length - n)⟩

/-- Python `pat in s` (substring containment) on character lists. -/
def str_contains : List Char → List Char → Bool
  | s, pat =>
    pat.isPrefixOf s ||
      match s with
      | [] => false
      | _ :: rest => str_contains rest pat

/-- Left-to-right non-overlapping replacement with explicit fuel (one unit
per input character suffices, since each step consumes at least one
character). -/
def replace_all_aux : Nat → List Char → List Char → List Char → List Char
  | 0, s, _, _ => s
  | fuel + 1, s, pat, rep =>
    match s with
    | [] => []
    | c :: rest =>
      if pat ≠ [] ∧ pat.isPrefixOf (c :: rest) then
        rep ++ replace_all_aux fuel ((c :: rest).drop pat.length) pat rep
      else
        c :: replace_all_aux fuel rest pat rep

/-- Python `s.replace(pat, rep)` for a non-empty `pat`: replace every
occurrence, scanning left to right without overlap.  For `pat = []` the
function is the identity (the source never calls `replace` with an empty
token: `if self.token` guards it). -/
def replace_all (s pat rep : List Char) : List Char :=
  replace_all_aux (s.length + 1) s pat rep

/-! ## GitService (`chatsbom/services/git_service.py`) -/

/-- The masking string `'*****'`. -/
def mask_stars : List Char := ['*', '*', '*', '*', '*']

/-- `_mask_url` (`services/git_service.py` lines 121-125): if a token is
configured and occurs in the string, replace every occurrence with
`'*****'`; otherwise return the string unchanged.  `none` and the empty
string are falsy (`if self.token and self.token in url`). -/
def mask_url (token : Option String) (url : String) : String :=
  match token with
  | none => url
  | some t =>
    if !t.data.isEmpty && str_contains url.data t.data then
      ⟨replace_all url.data t.data mask_stars⟩
    else url

/-- The two strings logged when `git ls-remote` fails
(`services/git_service.py` lines 99-112): the remote URL and the stringified
exception, both passed through `_mask_url`. -/
def ls_remote_failure_log (token : Option String) (url err : String) :
    String × String :=
  (mask_url token url, mask_url token err)

/-- One line of the `git ls-remote` advertisement after
`line.split(None, 1)`: the object hash and the full ref name. -/
structure RefLine where
  sha : String
  ref_full : String
deriving Repr, DecidableEq

/-- The ref dictionary built by `get_repo_refs`, as an insertion-ordered
association list (Python `dict`): keys are full and short ref names, values
are hashes. -/
abbrev RefMap := List (String × String)

/-- Dictionary lookup `refs.get(k)` / `k in refs`. -/
def RefMap.find (m : RefMap) (k : String) : Option String :=
  (List.find? (fun p => p.1 == k) m).map (fun p => p.2)

/-- Dictionary assignment `refs[k] = v`: overwrite the value in place at
the key's insertion position when present (a `dict` holds each key once),
else append the new entry at the end. -/
def RefMap.set (m : RefMap) (k v : String) : RefMap :=
  match m with
  | [] => [(k, v)]
  | p :: rest => if p.1 == k then (k, v) :: rest else p :: RefMap.set rest k v

/-- Number of entries `len(refs)`. -/
def RefMap.size (m : RefMap) : Nat := List.length m

/-- `_get_short_name` (`services/git_service.py` lines 114-119): strip a
`refs/tags/` or `refs/heads/` prefix, else `None`. -/
def get_short_name (ref_full : String) : Option String :=
  if str_starts_with ref_full "refs/tags/" then some (str_drop ref_full 10)
  else if str_starts_with ref_full "refs/heads/" then some (str_drop ref_full 11)
  else none

/-- Processing of one advertisement line by the loop in `get_repo_refs`
(`services/git_service.py` lines 55-75).  A dereference line
(`...^\x7b\x7d`) overwrites both the base ref and its short name; a plain
line is written only when the full name is not yet present, and then also
writes its short name (the Python `if short:` guard also rejects the empty
string). -/
def process_ref_line (refs : RefMap) (l : RefLine) : RefMap :=
  if str_ends_with l.ref_full "^\x7b\x7d" then
    let base := str_drop_right l.ref_full 3
    let refs1 := refs.set base l.sha
    match get_short_name base with
    | some short => if short.data.isEmpty then refs1 else refs1.set short l.sha
    | none => refs1
  else
    if (refs.find l.ref_full).isSome then refs
    else
      let refs1 := refs.set l.ref_full l.sha
      match get_short_name l.ref_full with
      | some short => if short.data.isEmpty then refs1 else refs1.set short l.sha
      | none => refs1

/-- The full ref dictionary built from an advertisement. -/
def build_refs (lines : List RefLine) : RefMap :=
  lines.foldl process_ref_line []

/-- Whether processing an advertisement line can write the dictionary key
`k` (used to state that unrelated lines leave a ref's entry alone). -/
def line_touches (l : RefLine) (k : String) : Bool :=
  if str_ends_with l.ref_full "^\x7b\x7d" then
    let base := str_drop_right l.ref_full 3
    base == k ||
      (match get_short_name base with
       | some s => !s.data.isEmpty && s == k
       | none => false)
  else
    l.ref_full == k ||
      (match get_short_name l.ref_full with
       | some s => !s.data.isEmpty && s == k
       | none => false)

/-- The parsed content of a refs cache file: the `updated_at` timestamp (in
epoch seconds; `none` models a missing field) and the stored `data` map. -/
structure RefsCacheFile where
  updated_at : Option Int
  data : RefMap
deriving Repr, DecidableEq

/-- The environment of one `get_repo_refs` call: the cache file currently on
disk at `cache_path` (`none` = absent or unreadable), the outcome the
`git ls-remote` subprocess would produce (`none` = `GitCommandError` or any
other exception), the current wall-clock time, and the configured
`github.cache_ttl` (seconds). -/
structure GitEnv where
  cache_file : Option RefsCacheFile
  ls_remote : Option (List RefLine)
  now : Int
  cache_ttl : Int
deriving Repr, DecidableEq

/-- The condition under which `get_repo_refs` serves the cache: the cache
file exists (and parses), carries an `updated_at`, and its age is strictly
below the configured TTL. -/
def cache_fresh (env : GitEnv) : Prop :=
  ∃ cf t, env.cache_file = some cf ∧ cf.updated_at = some t ∧
    env.now - t < env.cache_ttl

/-- Result of `get_repo_refs`: the returned `(refs_dict, is_cached)` pair,
whether the ls-remote subprocess was invoked, and the cache file on disk
after the call. -/
structure RefsResult where
  refs : RefMap
  was_cached : Bool
  ls_remote_invoked : Bool
  cache_after : Option RefsCacheFile
deriving Repr, DecidableEq

/-- The live part of `get_repo_refs` (`services/git_service.py` lines
46-112), reached when no fresh cache entry was served: run `ls-remote`,
build the ref map, persist it to the cache when a cache path is given and
the map is non-empty; on any subprocess failure log (with masked URL) and
return the empty dict with `is_cached = False`. -/
def get_repo_refs_live (env : GitEnv) (use_cache_path : Bool) : RefsResult :=
  match env.ls_remote with
  | some lines =>
    let refs := build_refs lines
    let cache1 :=
      if use_cache_path && !(List.isEmpty refs) then
        some ⟨some env.now, refs⟩
      else env.cache_file
    ⟨refs, false, true, cache1⟩
  | none => ⟨[], false, true, env.cache_file⟩

/-- `get_repo_refs` (`services/git_service.py` lines 24-112): serve the
cached map with `is_cached = True` when the cache file exists, parses, has
an `updated_at`, and its age is strictly below the TTL; otherwise fall
through to the live ls-remote fetch. -/
def get_repo_refs (env : GitEnv) (use_cache_path : Bool) : RefsResult :=
  match (if use_cache_path then env.cache_file else none) with
  | some cf =>
    match cf.updated_at with
    | some t =>
      if env.now - t < env.cache_ttl then ⟨cf.data, true, false, env.cache_file⟩
      else get_repo_refs_live env use_cache_path
    | none => get_repo_refs_live env use_cache_path
  | none => get_repo_refs_live env use_cache_path

/-- Result of `resolve_ref`: the `(sha, is_cached, num_refs)` triple plus
the cache file left on disk. -/
structure ResolveResult where
  sha : Option String
  was_cached : Bool
  num_refs : Nat
  cache_after : Option RefsCacheFile
deriving Repr, DecidableEq

/-- `resolve_ref` (`services/git_service.py` lines 127-143): fetch the full
ref map, then try an exact match, then `refs/tags/<ref>`, then
`refs/heads/<ref>`; no match returns `None`. -/
def resolve_ref (env : GitEnv) (use_cache_path : Bool) (ref : String) :
    ResolveResult :=
  let res := get_repo_refs env use_cache_path
  let sha :=
    match res.refs.find ref with
    | some s => some s
    | none =>
      match res.refs.find ("refs/tags/" ++ ref) with
      | some s => some s
      | none => res.refs.find ("refs/heads/" ++ ref)
  ⟨sha, res.was_cached, res.refs.size, res.cache_after⟩

/-- The resolution priority stated by the spec, written independently for
comparison: exact name first, then the `refs/tags/` form, then the
`refs/heads/` form. -/
def resolve_priority_spec (m : RefMap) (ref : String) : Option String :=
  match m.find ref with
  | some s => some s
  | none =>
    match m.find ("refs/tags/" ++ ref) with
    | some s => some s
    | none => m.find ("refs/heads/" ++ ref)

/-! ## CommitService (`chatsbom/services/commit_service.py`) -/

/-- Python `s[:n]`. -/
def str_take (s : String) (n : Nat) : String := ⟨s.data.take n⟩

/-- Which `CommitStats` counter the statistics update after resolution bumps
(`services/commit_service.py` lines 67-70): `inc_cache_hits` when the last
`resolve_ref` call reported `is_cached`, else `inc_api_requests`. -/
inductive StatMark where
  | cache_hit
  | api_request
deriving Repr, DecidableEq

/-- The `DownloadTarget` written into the repository record
(`models/download_target.py`). -/
structure DownloadTarget where
  ref : String
  ref_type : String
  commit_sha : String
  commit_sha_short : String
deriving Repr, DecidableEq

/-- Outcome of `CommitService.process_repo`: the download target (when a
hash was resolved), the counter bumped for the final lookup, whether the
record was enriched or counted failed, and the refs cache left on disk. -/
structure CommitOutcome where
  target : Option DownloadTarget
  mark : StatMark
  enriched : Bool
  failed : Bool
  cache_after : Option RefsCacheFile
deriving Repr, DecidableEq

/-- `CommitService.process_repo` (`services/commit_service.py` lines
31-109): pick the latest stable release tag when present (else the default
branch), resolve it, and on a failed release-tag resolution fall back to the
default branch.  The second `resolve_ref` call runs against the cache file
left behind by the first call (which persists a freshly fetched, non-empty
advertisement).  `ls-remote` hashes are non-empty, so `not sha` is `sha is
None`. -/
def commit_process_repo (env : GitEnv) (default_branch : String)
    (latest_stable_tag : Option String) : CommitOutcome :=
  let refAndType :=
    match latest_stable_tag with
    | some tag => (tag, "release")
    | none => (default_branch, "branch")
  let r1 := resolve_ref env true refAndType.1
  let env1 : GitEnv := { env with cache_file := r1.cache_after }
  let second :=
    if r1.sha.isNone && refAndType.2 == "release" then
      (default_branch, "branch", resolve_ref env1 true default_branch)
    else (refAndType.1, refAndType.2, r1)
  let r2 := second.2.2
  let mark : StatMark := if r2.was_cached then .cache_hit else .api_request
  match r2.sha with
  | some sha =>
    ⟨some ⟨second.1, second.2.1, sha, str_take sha 7⟩, mark, true, false,
      r2.cache_after⟩
  | none => ⟨none, mark, false, true, r2.cache_after⟩

/-! ## SbomService (`chatsbom/services/sbom_service.py`)

The SHA-256 digest of `_calculate_dir_hash` is modelled by the exact byte
stream fed into the hasher (the concatenation, in sorted relative-path
order, of each path's encoding followed by the file's bytes): equal streams
give equal digests. -/

/-- The files under the content directory: (relative path, file bytes). -/
abbrev DirFile := String × List Nat

/-- Character-wise (code-point-wise) comparison of two path strings: the
total order `sorted(...)` uses over the directory's relative paths. -/
def chars_le : List Char → List Char → Bool
  | [], _ => true
  | _ :: _, [] => false
  | c :: cs, d :: ds =>
    if c.toNat < d.toNat then true
    else if d.toNat < c.toNat then false
    else chars_le cs ds

/-- The path order used by `sorted(...)` over the directory's files. -/
def dirfile_le (a b : DirFile) : Prop := chars_le a.1.data b.1.data = true

instance : DecidableRel dirfile_le :=
  fun a b => inferInstanceAs (Decidable (chars_le a.1.data b.1.data = true))

/-- The sorted enumeration of `_calculate_dir_hash` (lines 50-51): all files
sorted by relative path. -/
def sorted_dir_files (files : List DirFile) : List DirFile :=
  files.insertionSort dirfile_le

/-- `str(rel_path).encode()`. -/
def encode_path (p : String) : List Nat := p.data.map Char.toNat

/-- `_calculate_dir_hash` (`services/sbom_service.py` lines 44-63): fold
each file's path encoding and raw bytes, in sorted path order, into one
hash; modelled as the hashed byte stream itself. -/
def calculate_dir_hash (files : List DirFile) : List Nat :=
  (sorted_dir_files files).foldl (fun acc f => acc ++ encode_path f.1 ++ f.2) []

/-- Input state for one `SbomService.process_repo` call: the record fields
and file-system facts the method branches on, the content directory's
files, the global syft cache (digest ↦ cached bytes; `none` lookup = no
cache file), and what the `syft` subprocess would print (`none` =
`CalledProcessError`). -/
structure SbomInput where
  local_content_path : Option String
  path_exists : Bool
  rel_path_valid : Bool
  output_exists : Bool
  force : Bool
  dir_files : List DirFile
  cache : List (List Nat × List Nat)
  syft_stdout : Option (List Nat)

/-- Lookup in the global syft cache by digest. -/
def sbom_cache_lookup (c : List (List Nat × List Nat)) (h : List Nat) :
    Option (List Nat) :=
  (List.find? (fun p => p.1 == h) c).map (fun p => p.2)

/-- Outcome of `SbomService.process_repo`, one constructor per exit path of
lines 65-187; `cache_hit`/`generated` carry the bytes written to the
stage's output file. -/
inductive SbomOutcome where
  | skipped_no_path
  | failed_missing_content
  | failed_invalid_path
  | skipped_existing
  | cache_hit (written : List Nat)
  | generated (written : List Nat)
  | failed_syft
deriving Repr, DecidableEq

/-- `SbomService.process_repo` (`services/sbom_service.py` lines 65-187):
missing `local_content_path` → skip; missing content directory → fail;
invalid path structure → fail; existing output file (without `force`) →
skip; then compute the directory digest, serve the global cache when a
cache file exists for it (without `force`), else run `syft` and write its
stdout to the output file and the cache. -/
def sbom_process_repo (inp : SbomInput) : SbomOutcome :=
  match inp.local_content_path with
  | none => .skipped_no_path
  | some _ =>
    if !inp.path_exists then .failed_missing_content
    else if !inp.rel_path_valid then .failed_invalid_path
    else if !inp.force && inp.output_exists then .skipped_existing
    else
      let content_hash := calculate_dir_hash inp.dir_files
      match (if !inp.force then sbom_cache_lookup inp.cache content_hash else none) with
      | some content => .cache_hit content
      | none =>
        match inp.syft_stdout with
        | some out => .generated out
        | none => .failed_syft

/-- Whether an outcome ran the external `syft` subprocess. -/
def syft_invoked : SbomOutcome → Bool
  | .generated _ => true
  | .failed_syft => true
  | _ => false

/-- The bytes written to the stage's output file by an outcome, if any. -/
def sbom_output_written : SbomOutcome → Option (List Nat)
  | .cache_hit c => some c
  | .generated o => some o
  | _ => none

/-! ## ReleaseService (`chatsbom/services/release_service.py`)

`datetime` values are modelled as integral epoch seconds. -/

/-- `datetime.min` (0001-01-01) as epoch seconds. -/
def datetime_min : Int := -62135596800

/-- A `GitHubRelease` entry (`models/github_release.py`): dates may be
absent (`None`). -/
structure Release where
  id : Nat
  tag_name : String
  name : Option String
  published_at : Option Int
  created_at : Option Int
  target_commitish : Option String
  is_prerelease : Bool
  is_draft : Bool
  source : String
deriving Repr, DecidableEq

/-- The sort key `x.published_at or x.created_at or datetime.min`
(`services/release_service.py` line 143); `datetime` values are always
truthy, `None` is falsy. -/
def release_sort_key (r : Release) : Int :=
  match r.published_at with
  | some t => t
  | none =>
    match r.created_at with
    | some t => t
    | none => datetime_min

/-- `all_entries.sort(key=..., reverse=True)` (lines 142-145): Python's
stable sort, descending by date key. -/
def sort_releases (l : List Release) : List Release :=
  l.insertionSort (fun a b => release_sort_key b ≤ release_sort_key a)

/-- `tags_only` (`services/release_service.py` lines 76-79): the short-name
entries of the ls-remote ref map (names not starting with `refs/`). -/
def tags_only (refs : RefMap) : List (String × String) :=
  refs.filter (fun p => !(str_starts_with p.1 "refs/"))

/-- The tag loop of `ReleaseService.process_repo` (lines 114-139).  For each
ref short name with no release of the same tag name, line 118 evaluates
`self.service.get_commit_date(owner, repo, sha)` — but `GitHubService`
(`services/github_service.py`) defines no method `get_commit_date` (it has
only `get_commit_metadata`), and no enclosing `try` covers lines 104-159, so
the attribute lookup raises an uncaught `AttributeError` at the first such
tag; a tag whose name matches a release is skipped by the
`if tag_name not in releases_map` guard and appends nothing.  `none` models
the uncaught exception; the entry-building lines 119-139 are unreachable. -/
def merge_tags_loop (release_tag_names : List String) :
    List (String × String) → Option (List Release)
  | [] => some []
  | t :: rest =>
    if release_tag_names.contains t.1 then merge_tags_loop release_tag_names rest
    else none

/-- The merged, date-sorted release history of `ReleaseService.process_repo`
(lines 104-145): API releases (source `github_release`) plus the tag loop,
sorted by date descending — `none` when the tag loop raises. -/
def merge_release_entries (releases : List Release) (refs : RefMap) :
    Option (List Release) :=
  let release_tag_names := releases.map (fun r => r.tag_name)
  let from_api := releases.map (fun r => { r with source := "github_release" })
  (merge_tags_loop release_tag_names (tags_only refs)).map
    (fun tag_entries => sort_releases (from_api ++ tag_entries))

/-- The `latest_stable` selection loop (`services/release_service.py` lines
151-155): scan the sorted entries, stop at the first with both flags false;
`None` when the loop never breaks. -/
def latest_stable_loop : List Release → Option Release
  | [] => none
  | r :: rest =>
    if !r.is_prerelease && !r.is_draft then some r else latest_stable_loop rest

/-- The `latest_stable_release` field written by
`ReleaseService.process_repo` (line 157); the outer `none` is the
`AttributeError` escaping from the merge stage, in which case the field is
never written. -/
def release_latest_stable (releases : List Release) (refs : RefMap) :
    Option (Option Release) :=
  (merge_release_entries releases refs).map latest_stable_loop

/-! ## SearchService (`chatsbom/services/search_service.py`)

The deterministic synthetic search source is a fixed population of
repositories; a search query filters it by star condition and (for time
slices) by creation day, sorts by stars descending (`sort=stars`,
`order=desc`; ties resolved deterministically by population order), and
serves 100-item pages.  Creation instants are integral epoch seconds;
date-range queries have day granularity (`%Y-%m-%d`). -/

/-- A repository of the synthetic population. -/
structure SRepo where
  id : Nat
  stars : Nat
  created : Nat
deriving Repr, DecidableEq

/-- The creation day of a repository (days since epoch; the `%Y-%m-%d`
granularity of `created:` ranges). -/
def SRepo.created_day (r : SRepo) : Nat := r.created / 86400

/-- `datetime.datetime(2008, 1, 1)` as epoch seconds. -/
def t2008 : Nat := 1199145600

/-- The star condition of a search query: `stars:>n`, `stars:lo..hi`, or
the exact `stars:n` used by time slicing. -/
inductive StarCond where
  | gt (n : Nat)
  | between (lo hi : Nat)
  | exact (n : Nat)
deriving Repr, DecidableEq

/-- Star filter semantics (GitHub range qualifiers: `>` strict, `..`
inclusive on both ends). -/
def star_matches : StarCond → Nat → Bool
  | .gt n, s => n < s
  | .between lo hi, s => lo ≤ s && s ≤ hi
  | .exact n, s => s == n

/-- `created:d1..d2` day-range semantics (inclusive; `none` = no
`created:` qualifier). -/
def created_matches : Option (Nat × Nat) → Nat → Bool
  | none, _ => true
  | some dr, d => dr.1 ≤ d && d ≤ dr.2

/-- Whether a repository matches a query. -/
def SRepo.matches (sc : StarCond) (cr : Option (Nat × Nat)) (r : SRepo) : Bool :=
  star_matches sc r.stars && created_matches cr r.created_day

/-- The stars-descending order of search results (`sort=stars`,
`order=desc`). -/
def stars_ge (a b : SRepo) : Prop := b.stars ≤ a.stars

instance : DecidableRel stars_ge := fun a b => inferInstanceAs (Decidable (b.stars ≤ a.stars))

instance : IsTotal SRepo stars_ge := ⟨fun a b => Nat.le_total b.stars a.stars⟩

instance : IsTrans SRepo stars_ge := ⟨fun _ _ _ h1 h2 => Nat.le_trans h2 h1⟩

/-- The full, deterministic result list of a query against the synthetic
population: matching repositories sorted by stars descending (stable in
population order). -/
def search_results (pop : List SRepo) (sc : StarCond) (cr : Option (Nat × Nat)) :
    List SRepo :=
  (pop.filter (SRepo.matches sc cr)).insertionSort stars_ge

/-- The pagination loop shared by `run` (lines 61-96) and
`_process_time_slice` (lines 154-161): pages 1..10 of 100 items, stopping
early on an empty page or a page shorter than 100. -/
def collect_pages_aux : Nat → List SRepo → List SRepo
  | 0, _ => []
  | n + 1, res =>
    let page := res.take 100
    if page.isEmpty then []
    else if page.length < 100 then page
    else page ++ collect_pages_aux n (res.drop 100)

/-- All items one batch fetches for a query (at most 10 pages × 100). -/
def collect_pages (results : List SRepo) : List SRepo :=
  collect_pages_aux 10 results

/-- The serialized JSONL line of a repository item. -/
def SRepo.dump (r : SRepo) : String :=
  toString r.id ++ "," ++ toString r.stars ++ "," ++ toString r.created

/-- Saving each fetched item through `Storage.save` in order. -/
def save_all (st : Storage) (items : List SRepo) : Storage :=
  items.foldl (fun s r => (s.save ⟨r.id, r.dump⟩).2) st

/-- `min_stars_in_batch`: fold `min` over the batch starting from the
sentinel `999999999` (`search_service.py` lines 58 and 74-77). -/
def batch_min_stars (batch : List SRepo) : Nat :=
  batch.foldl (fun m r => min m r.stars) 999999999

/-- `_process_time_slice` (`services/search_service.py` lines 137-173) on
the range `[s, e]` (epoch seconds): query `stars:<v> created:<day s>..<day
e>`; on ≥ 1000 results bisect at the midpoint and process `(s, mid)` then
`(mid+1, e)` (the LIFO stack order), else save every item.  The explicit
fuel bounds the bisection depth; the code's own termination relies on leaf
day ranges holding < 1000 results. -/
def time_slice (pop : List SRepo) (stars : Nat) :
    Nat → Nat → Nat → Storage → Storage
  | 0, _, _, st => st
  | fuel + 1, s, e, st =>
    if 1000 ≤ (collect_pages (search_results pop (.exact stars)
        (some (s / 86400, e / 86400)))).length then
      time_slice pop stars fuel (s + (e - s) / 2 + 1) e
        (time_slice pop stars fuel s (s + (e - s) / 2) st)
    else
      save_all st (collect_pages (search_results pop (.exact stars)
        (some (s / 86400, e / 86400))))

/-- Outcome of one iteration of the `run` loop: stop, or continue with the
new `current_max_stars`. -/
inductive StepOut where
  | stop (st : Storage)
  | next (c : Nat) (st : Storage)
deriving Repr, DecidableEq

/-- The check closing each iteration (`search_service.py` lines 120-121):
break when the new ceiling fell below `min_stars`. -/
def step_continue (min_stars c : Nat) (st : Storage) : StepOut :=
  if c < min_stars then .stop st else .next c st

/-- Lines 107/116 followed by the line-120 check, for the two sites that
set `current_max_stars = min_stars_in_batch - 1`: over Python's ints,
`v - 1 < min_stars` is `v <= min_stars`, and in the surviving branch
`v - 1` is an exact natural subtraction. -/
def step_continue_pred (min_stars v : Nat) (st : Storage) : StepOut :=
  if v ≤ min_stars then .stop st else .next (v - 1) st

/-- One iteration of `SearchService.run`'s `while True:` loop (lines
47-121): build the query from `current_max_stars`, page through and save
the batch, then descend the star window — break on an empty batch; on a
short batch break (unbounded query, or floor reached) or drop the ceiling
to `min_stars_in_batch - 1`; on a full batch of 1000 detect a dense wall
(`min_stars_in_batch == current_max_stars`), run time slicing over
`[2008-01-01, now]` and continue at `value - 1`, else continue at
`min_stars_in_batch`. -/
def run_star_cond (min_stars : Nat) (cur : Option Nat) : StarCond :=
  match cur with
  | none => StarCond.gt min_stars
  | some c => StarCond.between min_stars c

/-- The batch one iteration of `run` fetches and saves. -/
def run_batch (pop : List SRepo) (min_stars : Nat) (cur : Option Nat) :
    List SRepo :=
  collect_pages (search_results pop (run_star_cond min_stars cur) none)

def run_step (pop : List SRepo) (min_stars now slice_fuel : Nat)
    (cur : Option Nat) (st : Storage) : StepOut :=
  let batch := run_batch pop min_stars cur
  let st1 := save_all st batch
  let minb := batch_min_stars batch
  if batch.length = 0 then .stop st1
  else if batch.length < 1000 then
    match cur with
    | none => .stop st1
    | some _ =>
      if minb ≤ min_stars then .stop st1
      else step_continue_pred min_stars minb st1
  else
    match cur with
    | some c =>
      if minb = c then
        step_continue_pred min_stars minb
          (time_slice pop minb slice_fuel t2008 now st1)
      else step_continue min_stars minb st1
    | none => step_continue min_stars minb st1

/-- The `while True:` loop of `SearchService.run`, with fuel (the ceiling
strictly decreases, so `max_stars pop + 3` iterations always suffice). -/
def run_loop (pop : List SRepo) (min_stars now slice_fuel : Nat) :
    Nat → Option Nat → Storage → Storage
  | 0, _, st => st
  | fuel + 1, cur, st =>
    match run_step pop min_stars now slice_fuel cur st with
    | .stop st1 => st1
    | .next c st1 => run_loop pop min_stars now slice_fuel fuel (some c) st1

/-- `SearchService.run` (lines 36-123): skip entirely when the storage
already covers the requested floor (`min_stars_seen <= min_stars`), else
run the star-descent loop starting from the unbounded query. -/
def search_run (pop : List SRepo) (min_stars now outer_fuel slice_fuel : Nat)
    (st0 : Storage) : Storage :=
  match st0.min_stars_seen with
  | some m =>
    if m ≤ min_stars then st0
    else run_loop pop min_stars now slice_fuel outer_fuel none st0
  | none => run_loop pop min_stars now slice_fuel outer_fuel none st0

/-- The largest star count in the population (for the fuel bound). -/
def max_stars (pop : List SRepo) : Nat :=
  pop.foldr (fun r m => max r.stars m) 0

/-! ## Supporting lemmas -/

theorem Storage.empty_wf : Storage.empty.Wf := by
  refine ⟨?_, ?_⟩ <;> simp [Storage.empty]

lemma Storage.save_visited {st : Storage} {r : Record} :
    (st.save r).2.visited_ids =
      if r.id ∈ st.visited_ids then st.visited_ids else r.id :: st.visited_ids := by
  by_cases hmem : r.id ∈ st.visited_ids <;> simp [Storage.save, hmem]

lemma Storage.save_mem_visited {st : Storage} {r : Record} {i : Nat} :
    i ∈ (st.save r).2.visited_ids ↔ i ∈ st.visited_ids ∨ i = r.id := by
  rw [Storage.save_visited]
  by_cases hmem : r.id ∈ st.visited_ids
  · simp only [if_pos hmem]
    constructor
    · exact Or.inl
    · rintro (h | h)
      · exact h
      · exact h ▸ hmem
  · simp only [if_neg hmem, List.mem_cons]
    tauto

lemma Storage.save_wf {st : Storage} {r : Record} (h : st.Wf) :
    (st.save r).2.Wf := by
  obtain ⟨hnd, hiff⟩ := h
  by_cases hmem : r.id ∈ st.visited_ids
  · simp only [Storage.save, if_pos hmem]
    exact ⟨hnd, hiff⟩
  · simp only [Storage.save, if_neg hmem]
    refine ⟨?_, ?_⟩
    · simp only [List.map_append, List.map_cons, List.map_nil]
      rw [List.nodup_append]
      refine ⟨hnd, List.nodup_singleton _, ?_⟩
      intro a ha hb
      simp only [List.mem_cons, List.not_mem_nil, or_false] at hb
      subst hb
      exact hmem ((hiff _).mp ha)
    · intro i
      simp only [List.map_append, List.map_cons, List.map_nil, List.mem_append,
        List.mem_cons, List.not_mem_nil, or_false]
      rw [hiff i]
      tauto

lemma Storage.save_min_stars {st : Storage} {r : Record} :
    (st.save r).2.min_stars_seen = st.min_stars_seen := by
  by_cases hmem : r.id ∈ st.visited_ids <;> simp [Storage.save, hmem]

lemma Storage.save_of_mem {st : Storage} {r : Record}
    (h : r.id ∈ st.visited_ids) : st.save r = (false, st) := by
  simp [Storage.save, h]

/-! ## C3 — Storage dedup -/

/-- **C3.** For every record `R` saved into a well-formed store whose id is
new, `Storage.save` appends exactly one serialized line to the file,
flushes, and returns `True`; every later `save` of a record with the same
id returns `False` and leaves the store (hence the file) unchanged; and the
resulting file never contains two records with the same identifier. -/
theorem storage_save_dedup (st : Storage) (r : Record)
    (hwf : st.Wf) (hnew : r.id ∉ st.visited_ids) :
    (st.save r).1 = true ∧
    (st.save r).2.file = st.file ++ [r] ∧
    (∀ r2 : Record, r2.id = r.id →
      ((st.save r).2.save r2).1 = false ∧
      ((st.save r).2.save r2).2 = (st.save r).2) ∧
    ((st.save r).2.file.map Record.id).Nodup := by
  have hsave1 : (st.save r).1 = true := by simp [Storage.save, hnew]
  have hfile : (st.save r).2.file = st.file ++ [r] := by simp [Storage.save, hnew]
  have hvis : (st.save r).2.visited_ids = r.id :: st.visited_ids := by
    simp [Storage.save, hnew]
  refine ⟨hsave1, hfile, ?_, (Storage.save_wf hwf).1⟩
  intro r2 hid
  have hmem2 : r2.id ∈ (st.save r).2.visited_ids := by
    rw [hvis, hid]; exact List.mem_cons_self _ _
  rw [Storage.save_of_mem hmem2]
  exact ⟨rfl, rfl⟩

/-- Witness for C3 at a concrete store and record. -/
theorem storage_save_dedup_witness :
    (Storage.empty.Wf ∧ (1 : Nat) ∉ Storage.empty.visited_ids) ∧
    ((Storage.empty.save ⟨1, "line1"⟩).1 = true ∧
      (Storage.empty.save ⟨1, "line1"⟩).2.file = Storage.empty.file ++ [⟨1, "line1"⟩] ∧
      (∀ r2 : Record, r2.id = 1 →
        ((Storage.empty.save ⟨1, "line1"⟩).2.save r2).1 = false ∧
        ((Storage.empty.save ⟨1, "line1"⟩).2.save r2).2 =
          (Storage.empty.save ⟨1, "line1"⟩).2) ∧
      ((Storage.empty.save ⟨1, "line1"⟩).2.file.map Record.id).Nodup) :=
  ⟨⟨Storage.empty_wf, by simp [Storage.empty]⟩,
    storage_save_dedup Storage.empty ⟨1, "line1"⟩ Storage.empty_wf
      (by simp [Storage.empty])⟩

/-! ## C2 — rate-limit wait computation and circuit breaker -/

/-- **C2.** Whenever a live call returns HTTP 429, or 403 with a rate-limit
body, the wait is computed as reset-time minus now plus one second (or
retry-after plus one second); a wait exceeding 3600 seconds raises the
fatal circuit-breaker exception without sleeping, and otherwise the handler
sleeps for exactly the computed wait and the same request is retried. -/
theorem rate_limit_circuit_breaker (now : Int) (resp : ApiResponse)
    (rest : List ApiResponse) (sleeps : List Int)
    (hrl : is_rate_limited resp = true) :
    (∀ reset : Int, resp.x_ratelimit_reset = some reset →
      (3600 < reset - now + 1 →
        handle_api_rate_limit now resp = .fatal ∧
        make_request now (resp :: rest) sleeps = .raised sleeps) ∧
      (0 ≤ reset - now + 1 → reset - now + 1 ≤ 3600 →
        handle_api_rate_limit now resp = .slept (reset - now + 1) ∧
        make_request now (resp :: rest) sleeps =
          make_request now rest (sleeps ++ [reset - now + 1]))) ∧
    (∀ ra : Int, resp.x_ratelimit_reset = none → resp.retry_after = some ra →
      (3600 < ra + 1 →
        handle_api_rate_limit now resp = .fatal ∧
        make_request now (resp :: rest) sleeps = .raised sleeps) ∧
      (0 ≤ ra + 1 → ra + 1 ≤ 3600 →
        handle_api_rate_limit now resp = .slept (ra + 1) ∧
        make_request now (resp :: rest) sleeps =
          make_request now rest (sleeps ++ [ra + 1]))) := by
  constructor
  · intro reset hreset
    have hw : handle_api_rate_limit now resp =
        (if (if reset - now + 1 < 0 then 1 else reset - now + 1) > 3600 then
          RateLimitOutcome.fatal
        else .slept (if reset - now + 1 < 0 then 1 else reset - now + 1)) := by
      simp [handle_api_rate_limit, hreset]
    constructor
    · intro hgt
      have hnonneg : ¬ (reset - now + 1 < 0) := by omega
      have hfatal : handle_api_rate_limit now resp = .fatal := by
        rw [hw]; simp only [if_neg hnonneg]; rw [if_pos hgt]
      refine ⟨hfatal, ?_⟩
      simp [make_request, hrl, hfatal]
    · intro hge hle
      by_cases hneg : reset - now + 1 < 0
      · omega
      · have hslept : handle_api_rate_limit now resp = .slept (reset - now + 1) := by
          rw [hw]; simp only [if_neg hneg]
          rw [if_neg (by omega : ¬ (reset - now + 1 > 3600))]
        refine ⟨hslept, ?_⟩
        simp [make_request, hrl, hslept]
  · intro ra hreset hra
    have hw : handle_api_rate_limit now resp =
        (if (if ra + 1 < 0 then 1 else ra + 1) > 3600 then
          RateLimitOutcome.fatal
        else .slept (if ra + 1 < 0 then 1 else ra + 1)) := by
      simp [handle_api_rate_limit, hreset, hra]
    constructor
    · intro hgt
      have hnonneg : ¬ (ra + 1 < 0) := by omega
      have hfatal : handle_api_rate_limit now resp = .fatal := by
        rw [hw]; simp only [if_neg hnonneg]; rw [if_pos hgt]
      refine ⟨hfatal, ?_⟩
      simp [make_request, hrl, hfatal]
    · intro hge hle
      by_cases hneg : ra + 1 < 0
      · omega
      · have hslept : handle_api_rate_limit now resp = .slept (ra + 1) := by
          rw [hw]; simp only [if_neg hneg]
          rw [if_neg (by omega : ¬ (ra + 1 > 3600))]
        refine ⟨hslept, ?_⟩
        simp [make_request, hrl, hslept]

/-- Witness for C2: a simulated 429 whose reset time implies a two-hour
wait raises the fatal circuit breaker without sleeping. -/
theorem rate_limit_circuit_breaker_witness :
    is_rate_limited ⟨429, false, some 7199, none⟩ = true ∧
    handle_api_rate_limit 0 ⟨429, false, some 7199, none⟩ = .fatal ∧
    make_request 0 [⟨429, false, some 7199, none⟩] [] = .raised [] := by
  have h := rate_limit_circuit_breaker 0 ⟨429, false, some 7199, none⟩ [] []
    (by decide)
  have h2 := (h.1 7199 rfl).1 (by decide)
  exact ⟨by decide, h2.1, h2.2⟩

/-! ## C6 — refs cache TTL serving -/

lemma get_repo_refs_live_flags (env : GitEnv) (u : Bool) :
    (get_repo_refs_live env u).was_cached = false ∧
    (get_repo_refs_live env u).ls_remote_invoked = true := by
  cases h : env.ls_remote <;> simp [get_repo_refs_live, h]

/-- **C6.** `get_repo_refs` serves the cached ref set — `was_cached = true`
and without invoking the ls-remote subprocess — exactly when the cache file
exists with an `updated_at` strictly younger than the TTL; an entry whose
age is at least the TTL, or without a timestamp, is treated as absent and a
live ls-remote fetch is performed instead. -/
theorem refs_cache_ttl (env : GitEnv) :
    ((get_repo_refs env true).was_cached = true ∧
        (get_repo_refs env true).ls_remote_invoked = false ↔ cache_fresh env) ∧
    (∀ cf t, env.cache_file = some cf → cf.updated_at = some t →
      env.now - t < env.cache_ttl →
      get_repo_refs env true = ⟨cf.data, true, false, env.cache_file⟩) ∧
    (¬ cache_fresh env →
      (get_repo_refs env true).was_cached = false ∧
      (get_repo_refs env true).ls_remote_invoked = true) := by
  have hserve : ∀ cf t, env.cache_file = some cf → cf.updated_at = some t →
      env.now - t < env.cache_ttl →
      get_repo_refs env true = ⟨cf.data, true, false, env.cache_file⟩ := by
    intro cf t hcf ht httl
    simp [get_repo_refs, hcf, ht, if_pos httl]
  have hlive : ¬ cache_fresh env →
      get_repo_refs env true = get_repo_refs_live env true := by
    intro hnf
    cases hcf : env.cache_file with
    | none => simp [get_repo_refs, hcf]
    | some cf =>
      cases ht : cf.updated_at with
      | none => simp [get_repo_refs, hcf, ht]
      | some t =>
        have : ¬ env.now - t < env.cache_ttl := fun h =>
          hnf ⟨cf, t, hcf, ht, h⟩
        simp [get_repo_refs, hcf, ht, if_neg this]
  refine ⟨?_, hserve, ?_⟩
  · constructor
    · intro hflags
      by_contra hnf
      have := hlive hnf
      have hl := get_repo_refs_live_flags env true
      rw [this] at hflags
      exact absurd hflags.2 (by rw [hl.2]; simp)
    · rintro ⟨cf, t, hcf, ht, httl⟩
      rw [hserve cf t hcf ht httl]
      exact ⟨rfl, rfl⟩
  · intro hnf
    rw [hlive hnf]
    exact get_repo_refs_live_flags env true

/-- Witness for C6: a fresh cache entry is served without the subprocess; a
stale one (age equal to the TTL) triggers the live path. -/
theorem refs_cache_ttl_witness :
    get_repo_refs ⟨some ⟨some 50, [("main", "S")]⟩, none, 100, 60⟩ true =
      ⟨[("main", "S")], true, false, some ⟨some 50, [("main", "S")]⟩⟩ ∧
    (get_repo_refs ⟨some ⟨some 40, [("main", "S")]⟩, none, 100, 60⟩ true).was_cached
        = false ∧
    (get_repo_refs ⟨some ⟨some 40, [("main", "S")]⟩, none, 100, 60⟩ true).ls_remote_invoked
        = true := by
  have h1 := (refs_cache_ttl ⟨some ⟨some 50, [("main", "S")]⟩, none, 100, 60⟩).2.1
    ⟨some 50, [("main", "S")]⟩ 50 rfl rfl (by decide)
  have h2 := (refs_cache_ttl ⟨some ⟨some 40, [("main", "S")]⟩, none, 100, 60⟩).2.2
    (by
      rintro ⟨cf, t, hcf, ht, httl⟩
      simp only [Option.some_inj] at hcf
      subst hcf
      simp only [Option.some_inj] at ht
      subst ht
      exact absurd httl (by decide))
  exact ⟨h1, h2.1, h2.2⟩

/-! ## C10 — ls-remote failure is swallowed -/

/-- **C10.** If the ls-remote subprocess fails (any `GitCommandError` or
other exception), and the cache is not served, `get_repo_refs` returns the
empty ref map with `was_cached = false` instead of propagating the failure,
and `resolve_ref` consequently returns no hash, `was_cached = false`, and
`totalRefsSeen = 0`. -/
theorem ls_remote_failure_swallowed (env : GitEnv) (u : Bool) (ref : String)
    (hfail : env.ls_remote = none)
    (hmiss : u = true → ¬ cache_fresh env) :
    get_repo_refs env u = ⟨[], false, true, env.cache_file⟩ ∧
    resolve_ref env u ref = ⟨none, false, 0, env.cache_file⟩ := by
  have hlive : get_repo_refs_live env u = ⟨[], false, true, env.cache_file⟩ := by
    simp [get_repo_refs_live, hfail]
  have hmain : get_repo_refs env u = ⟨[], false, true, env.cache_file⟩ := by
    cases u with
    | false => simpa [get_repo_refs] using hlive
    | true =>
      have hnf := hmiss rfl
      cases hcf : env.cache_file with
      | none => simpa [get_repo_refs, hcf] using hlive
      | some cf =>
        cases ht : cf.updated_at with
        | none => simpa [get_repo_refs, hcf, ht] using hlive
        | some t =>
          have : ¬ env.now - t < env.cache_ttl := fun h =>
            hnf ⟨cf, t, hcf, ht, h⟩
          simpa [get_repo_refs, hcf, ht, if_neg this] using hlive
  refine ⟨hmain, ?_⟩
  simp [resolve_ref, hmain, RefMap.find, RefMap.size]

/-- Witness for C10 at a concrete environment with a failing subprocess. -/
theorem ls_remote_failure_swallowed_witness :
    get_repo_refs ⟨none, none, 0, 100⟩ true = ⟨[], false, true, none⟩ ∧
    resolve_ref ⟨none, none, 0, 100⟩ true "main" = ⟨none, false, 0, none⟩ := by
  have h := ls_remote_failure_swallowed ⟨none, none, 0, 100⟩ true "main" rfl
    (by rintro - ⟨cf, t, hcf, -⟩; cases hcf)
  exact h

/-! ## C8 — latest stable release selection -/

lemma latest_stable_loop_eq_find (l : List Release) :
    latest_stable_loop l = l.find? (fun r => !r.is_prerelease && !r.is_draft) := by
  induction l with
  | nil => rfl
  | cons r rest ih =>
    by_cases h : (!r.is_prerelease && !r.is_draft) = true
    · rw [latest_stable_loop, if_pos h, List.find?_cons_of_pos rest h]
    · rw [latest_stable_loop, if_neg h, List.find?_cons_of_neg rest
        (by simpa using h), ih]

lemma merge_tags_loop_none (names : List String) :
    ∀ l : List (String × String),
      (∃ t ∈ l, names.contains t.1 = false) →
      merge_tags_loop names l = none := by
  intro l
  induction l with
  | nil => rintro ⟨t, ht, -⟩; cases ht
  | cons t rest ih =>
    rintro ⟨u, hu, hcu⟩
    rw [merge_tags_loop]
    by_cases hc : names.contains t.1 = true
    · rw [if_pos hc]
      rcases List.mem_cons.mp hu with he | hm
      · subst he
        rw [hc] at hcu
        cases hcu
      · exact ih ⟨u, hm, hcu⟩
    · rw [if_neg hc]

lemma merge_tags_loop_all (names : List String) :
    ∀ l : List (String × String),
      (∀ t ∈ l, names.contains t.1 = true) →
      merge_tags_loop names l = some [] := by
  intro l
  induction l with
  | nil => intro h; rfl
  | cons t rest ih =>
    intro h
    rw [merge_tags_loop, if_pos (h t (List.mem_cons_self t rest))]
    exact ih (fun u hu => h u (List.mem_cons_of_mem t hu))

/-- **C8.** Refuted as a description of reachable behaviour: line 118 of
`release_service.py` calls `self.service.get_commit_date`, a method
`GitHubService` never defines, outside any `try`.  Whenever the
advertisement holds a bare git tag — a short name with no native release of
that tag name — the merge stage raises `AttributeError` and
`latest_stable_release` is never computed.  Only when every advertised tag
matches a native release does enrichment complete, and then the selection
is the first entry with both flags false of the date-sorted native releases
alone; bare git tags are never merged into the history. -/
theorem release_merge_attribute_error (releases : List Release)
    (refs : RefMap) :
    ((∃ t ∈ tags_only refs,
        (releases.map (fun r => r.tag_name)).contains t.1 = false) →
      release_latest_stable releases refs = none) ∧
    ((∀ t ∈ tags_only refs,
        (releases.map (fun r => r.tag_name)).contains t.1 = true) →
      release_latest_stable releases refs =
        some ((sort_releases (releases.map
            (fun r => { r with source := "github_release" }))).find?
          (fun r => !r.is_prerelease && !r.is_draft))) := by
  constructor
  · intro hbare
    rw [release_latest_stable, merge_release_entries,
      merge_tags_loop_none _ _ hbare]
    rfl
  · intro hall
    rw [release_latest_stable, merge_release_entries,
      merge_tags_loop_all _ _ hall]
    simp only [Option.map]
    rw [List.append_nil, latest_stable_loop_eq_find]

/-- Witness: enrichment of a repository advertising the bare tag `v1`
crashes when there is no native release, and completes with the selection
over the single native release when `v1` matches one. -/
theorem release_merge_attribute_error_witness :
    release_latest_stable [] [("v1", "S1")] = none ∧
    release_latest_stable
        [⟨1, "v1", some "v1", some 100, none, none, false, false,
          "github_release"⟩] [("v1", "S1")] =
      some ((sort_releases (([⟨1, "v1", some "v1", some 100, none, none, false,
            false, "github_release"⟩] : List Release).map
          (fun r => { r with source := "github_release" }))).find?
        (fun r => !r.is_prerelease && !r.is_draft)) :=
  ⟨(release_merge_attribute_error [] [("v1", "S1")]).1
      ⟨("v1", "S1"), by decide, by decide⟩,
    (release_merge_attribute_error [⟨1, "v1", some "v1", some 100, none, none,
      false, false, "github_release"⟩] [("v1", "S1")]).2 (by decide)⟩

/-! ## C4 — annotated tag dereference priority -/

lemma RefMap.find_cons (p : String × String) (m : RefMap) (k : String) :
    RefMap.find (p :: m) k =
      if (p.1 == k) = true then some p.2 else RefMap.find m k := by
  cases hpk : (p.1 == k) <;> simp [RefMap.find, List.find?_cons, hpk]

lemma RefMap.find_set_self (m : RefMap) (k v : String) :
    (m.set k v).find k = some v := by
  induction m with
  | nil => simp [RefMap.set, RefMap.find_cons]
  | cons p rest ih =>
    rw [RefMap.set]
    by_cases hk : (p.1 == k) = true
    · rw [if_pos hk, RefMap.find_cons]
      simp
    · rw [if_neg hk, RefMap.find_cons, if_neg hk]
      exact ih

lemma RefMap.find_set_ne (m : RefMap) (k v k2 : String) (h : k2 ≠ k) :
    (m.set k v).find k2 = m.find k2 := by
  have hkk2 : (k == k2) = false := by
    simp only [beq_eq_false_iff_ne, ne_eq]
    exact fun he => h he.symm
  induction m with
  | nil => simp [RefMap.set, RefMap.find_cons, RefMap.find, hkk2]
  | cons p rest ih =>
    rw [RefMap.set]
    by_cases hk : (p.1 == k) = true
    · have hp1 : p.1 = k := by simpa using hk
      rw [if_pos hk, RefMap.find_cons, RefMap.find_cons]
      simp only [hkk2]
      rw [show (p.1 == k2) = false by simpa [hp1] using hkk2]
      simp
    · rw [if_neg hk, RefMap.find_cons, RefMap.find_cons]
      by_cases hp2 : (p.1 == k2) = true
      · rw [if_pos hp2, if_pos hp2]
      · rw [if_neg hp2, if_neg hp2]
        exact ih

lemma process_ref_line_untouched (m : RefMap) (l : RefLine) (k : String)
    (h : line_touches l k = false) :
    (process_ref_line m l).find k = m.find k := by
  unfold line_touches at h
  unfold process_ref_line
  by_cases hd : str_ends_with l.ref_full "^\x7b\x7d" = true
  · rw [if_pos hd] at h ⊢
    simp only [Bool.or_eq_false_iff] at h
    have hbase : k ≠ str_drop_right l.ref_full 3 := by
      intro he
      have h1 := h.1
      rw [← he] at h1
      simp at h1
    cases hgs : get_short_name (str_drop_right l.ref_full 3) with
    | none =>
      simp only [hgs]
      exact RefMap.find_set_ne _ _ _ _ hbase
    | some s =>
      rw [hgs] at h
      simp only [hgs]
      by_cases hse : s.data.isEmpty = true
      · rw [if_pos hse]
        exact RefMap.find_set_ne _ _ _ _ hbase
      · rw [if_neg hse]
        have h2 : (!s.data.isEmpty && s == k) = false := h.2
        have hsk0 : (s == k) = false := by
          cases hq : (s == k) with
          | false => rfl
          | true =>
            rw [hq] at h2
            simp only [Bool.and_true] at h2
            exact absurd (by simpa using h2) hse
        have hsk : k ≠ s := by
          intro he
          rw [he] at hsk0
          simp at hsk0
        rw [RefMap.find_set_ne _ _ _ _ hsk]
        exact RefMap.find_set_ne _ _ _ _ hbase
  · rw [if_neg hd] at h ⊢
    simp only [Bool.or_eq_false_iff] at h
    have hfull : k ≠ l.ref_full := by
      intro he
      have h1 := h.1
      rw [← he] at h1
      simp at h1
    by_cases hmem : (m.find l.ref_full).isSome = true
    · rw [if_pos hmem]
    · rw [if_neg hmem]
      cases hgs : get_short_name l.ref_full with
      | none =>
        simp only [hgs]
        exact RefMap.find_set_ne _ _ _ _ hfull
      | some s =>
        rw [hgs] at h
        simp only [hgs]
        by_cases hse : s.data.isEmpty = true
        · rw [if_pos hse]
          exact RefMap.find_set_ne _ _ _ _ hfull
        · rw [if_neg hse]
          have h2 : (!s.data.isEmpty && s == k) = false := h.2
          have hsk0 : (s == k) = false := by
            cases hq : (s == k) with
            | false => rfl
            | true =>
              rw [hq] at h2
              simp only [Bool.and_true] at h2
              exact absurd (by simpa using h2) hse
          have hsk : k ≠ s := by
            intro he
            rw [he] at hsk0
            simp at hsk0
          rw [RefMap.find_set_ne _ _ _ _ hsk]
          exact RefMap.find_set_ne _ _ _ _ hfull

lemma str_ends_with_append_deref (t : String) :
    str_ends_with (t ++ "^\x7b\x7d") "^\x7b\x7d" = true := by
  rw [str_ends_with, List.isSuffixOf_iff_suffix, String.data_append]
  exact List.suffix_append _ _

lemma str_drop_right_append3 (t : String) :
    str_drop_right (t ++ "^\x7b\x7d") 3 = t := by
  cases t with
  | mk d =>
    rw [str_drop_right, String.data_append]
    have h3 : (String.mk d ++ "^\x7b\x7d").data.length - 3 = d.length := by
      rw [String.data_append, List.length_append]
      rfl
    rw [String.data_append] at h3
    rw [h3]
    have : ("^\x7b\x7d" : String).data.length = 3 := rfl
    have htake : List.take d.length (d ++ ("^\x7b\x7d" : String).data) = d :=
      List.take_left d _
    rw [htake]

lemma get_short_name_tags (x : String) :
    get_short_name ("refs/tags/" ++ x) = some x := by
  have hpre : str_starts_with ("refs/tags/" ++ x) "refs/tags/" = true := by
    rw [str_starts_with, List.isPrefixOf_iff_prefix, String.data_append]
    exact List.prefix_append _ _
  rw [get_short_name, if_pos hpre]
  have h10 : ("refs/tags/" : String).data.length = 10 := rfl
  cases x with
  | mk d =>
    rw [str_drop, String.data_append, ← h10, List.drop_left]

lemma tags_prefix_ne (x : String) : "refs/tags/" ++ x ≠ x := by
  intro he
  have : ("refs/tags/" ++ x).data.length = x.data.length := by rw [he]
  rw [String.data_append, List.length_append] at this
  simp at this

lemma process_ref_line_deref (m : RefMap) (x sha : String)
    (hx : ¬ x.data.isEmpty = true) :
    process_ref_line m ⟨sha, "refs/tags/" ++ x ++ "^\x7b\x7d"⟩ =
      (m.set ("refs/tags/" ++ x) sha).set x sha := by
  rw [process_ref_line]
  simp only [str_ends_with_append_deref, if_true, str_drop_right_append3,
    get_short_name_tags, if_neg hx]

lemma deref_sets_both (m : RefMap) (x sha : String)
    (hx : ¬ x.data.isEmpty = true) :
    (process_ref_line m ⟨sha, "refs/tags/" ++ x ++ "^\x7b\x7d"⟩).find
        ("refs/tags/" ++ x) = some sha ∧
    (process_ref_line m ⟨sha, "refs/tags/" ++ x ++ "^\x7b\x7d"⟩).find x
        = some sha := by
  rw [process_ref_line_deref m x sha hx]
  constructor
  · rw [RefMap.find_set_ne _ _ _ _ (tags_prefix_ne x)]
    exact RefMap.find_set_self _ _ _
  · exact RefMap.find_set_self _ _ _

lemma plain_line_skipped (m : RefMap) (l : RefLine)
    (hne : str_ends_with l.ref_full "^\x7b\x7d" = false)
    (hmem : (m.find l.ref_full).isSome = true) :
    process_ref_line m l = m := by
  rw [process_ref_line, hne]
  simp only [Bool.false_eq_true, if_false, if_pos hmem]

lemma deref_keys_preserved (x h1 sha : String) (l2 : List RefLine)
    (hne : str_ends_with ("refs/tags/" ++ x) "^\x7b\x7d" = false)
    (hother : ∀ l ∈ l2, l = ⟨h1, "refs/tags/" ++ x⟩ ∨
      (line_touches l ("refs/tags/" ++ x) = false ∧ line_touches l x = false)) :
    ∀ m : RefMap, m.find ("refs/tags/" ++ x) = some sha → m.find x = some sha →
      (l2.foldl process_ref_line m).find ("refs/tags/" ++ x) = some sha ∧
      (l2.foldl process_ref_line m).find x = some sha := by
  induction l2 with
  | nil => exact fun m hf hx2 => ⟨hf, hx2⟩
  | cons l rest ih =>
    intro m hf hx2
    rw [List.foldl_cons]
    rcases hother l (List.mem_cons_self _ _) with hpl | ⟨ht1, ht2⟩
    · subst hpl
      rw [plain_line_skipped m _ hne (by rw [hf]; rfl)]
      exact ih (fun l hl => hother l (List.mem_cons_of_mem _ hl)) m hf hx2
    · refine ih (fun l hl => hother l (List.mem_cons_of_mem _ hl)) _ ?_ ?_
      · rw [process_ref_line_untouched m l _ ht1]
        exact hf
      · rw [process_ref_line_untouched m l _ ht2]
        exact hx2

/-- **C4.** For every ls-remote advertisement containing both a tag line
`refs/tags/X` (hash `H1`) and a dereference line `refs/tags/X^\x7b\x7d`
(hash `H2`), in either order — the other lines not writing the two names —
`get_repo_refs` maps both `refs/tags/X` and the short name `X` to the
dereferenced hash `H2`, and `resolve_ref` on `X` returns `H2`. -/
theorem annotated_tag_deref_priority (x h1 h2 : String) (l1 l2 : List RefLine)
    (hx : x.data ≠ [])
    (hne : str_ends_with ("refs/tags/" ++ x) "^\x7b\x7d" = false)
    (hother : ∀ l ∈ l1 ++ l2,
      l = ⟨h1, "refs/tags/" ++ x⟩ ∨
      (line_touches l ("refs/tags/" ++ x) = false ∧ line_touches l x = false)) :
    (build_refs (l1 ++ ⟨h2, "refs/tags/" ++ x ++ "^\x7b\x7d"⟩ :: l2)).find
        ("refs/tags/" ++ x) = some h2 ∧
    (build_refs (l1 ++ ⟨h2, "refs/tags/" ++ x ++ "^\x7b\x7d"⟩ :: l2)).find x
        = some h2 ∧
    ∀ now ttl : Int,
      (resolve_ref ⟨none, some (l1 ++ ⟨h2, "refs/tags/" ++ x ++ "^\x7b\x7d"⟩ :: l2),
        now, ttl⟩ true x).sha = some h2 := by
  have hxe : ¬ x.data.isEmpty = true := by
    simpa [List.isEmpty_iff] using hx
  have hbuild : build_refs (l1 ++ ⟨h2, "refs/tags/" ++ x ++ "^\x7b\x7d"⟩ :: l2) =
      l2.foldl process_ref_line
        (process_ref_line (l1.foldl process_ref_line [])
          ⟨h2, "refs/tags/" ++ x ++ "^\x7b\x7d"⟩) := by
    rw [build_refs, List.foldl_append, List.foldl_cons]
  have hd := deref_sets_both (l1.foldl process_ref_line []) x h2 hxe
  have hp := deref_keys_preserved x h1 h2 l2 hne
    (fun l hl => hother l (List.mem_append_right _ hl))
    _ hd.1 hd.2
  rw [hbuild]
  refine ⟨hp.1, hp.2, ?_⟩
  intro now ttl
  have hrefs : ∀ env : GitEnv, env.cache_file = none →
      env.ls_remote = some (l1 ++ ⟨h2, "refs/tags/" ++ x ++ "^\x7b\x7d"⟩ :: l2) →
      (get_repo_refs env true).refs =
        build_refs (l1 ++ ⟨h2, "refs/tags/" ++ x ++ "^\x7b\x7d"⟩ :: l2) := by
    intro env hc hl
    simp [get_repo_refs, get_repo_refs_live, hc, hl]
  rw [resolve_ref]
  simp only [hrefs ⟨none, some _, now, ttl⟩ rfl rfl]
  rw [hbuild, hp.2]

/-- Witness for C4: the two-line synthetic ref set of the spec's test, in
both line orders. -/
theorem annotated_tag_deref_priority_witness :
    ((build_refs [⟨"H1", "refs/tags/v1"⟩, ⟨"H2", "refs/tags/v1^\x7b\x7d"⟩]).find
        "refs/tags/v1" = some "H2" ∧
     (build_refs [⟨"H1", "refs/tags/v1"⟩, ⟨"H2", "refs/tags/v1^\x7b\x7d"⟩]).find
        "v1" = some "H2") ∧
    ((build_refs [⟨"H2", "refs/tags/v1^\x7b\x7d"⟩, ⟨"H1", "refs/tags/v1"⟩]).find
        "refs/tags/v1" = some "H2" ∧
     (resolve_ref ⟨none, some [⟨"H2", "refs/tags/v1^\x7b\x7d"⟩, ⟨"H1", "refs/tags/v1"⟩],
        0, 100⟩ true "v1").sha = some "H2") := by
  have ha := annotated_tag_deref_priority "v1" "H1" "H2"
    [⟨"H1", "refs/tags/v1"⟩] [] (by decide) (by decide)
    (by
      intro l hl
      simp only [List.append_nil, List.mem_singleton] at hl
      exact Or.inl (by rw [hl]; rfl))
  have hb := annotated_tag_deref_priority "v1" "H1" "H2"
    [] [⟨"H1", "refs/tags/v1"⟩] (by decide) (by decide)
    (by
      intro l hl
      simp only [List.nil_append, List.mem_singleton] at hl
      exact Or.inl (by rw [hl]; rfl))
  exact ⟨⟨ha.1, ha.2.1⟩, ⟨hb.1, hb.2.2 0 100⟩⟩

/-! ## C9 — token masking -/

lemma str_contains_iff (s pat : List Char) :
    str_contains s pat = true ↔ ∃ t, t <:+ s ∧ pat <+: t := by
  induction s with
  | nil =>
    rw [str_contains]
    simp only [Bool.or_false]
    constructor
    · intro h
      exact ⟨[], List.suffix_nil.mpr rfl, List.isPrefixOf_iff_prefix.mp h⟩
    · rintro ⟨t, ht, hp⟩
      rw [List.suffix_nil.mp ht] at hp
      exact List.isPrefixOf_iff_prefix.mpr hp
  | cons c rest ih =>
    rw [str_contains]
    simp only [Bool.or_eq_true]
    constructor
    · rintro (h | h)
      · exact ⟨c :: rest, List.suffix_refl _, List.isPrefixOf_iff_prefix.mp h⟩
      · obtain ⟨t, ht, hp⟩ := ih.mp h
        exact ⟨t, ht.trans (List.suffix_cons _ _), hp⟩
    · rintro ⟨t, ht, hp⟩
      rcases List.suffix_cons_iff.mp ht with he | ht2
      · subst he
        exact Or.inl (List.isPrefixOf_iff_prefix.mpr hp)
      · exact Or.inr (ih.mpr ⟨t, ht2, hp⟩)

lemma mem_mask_stars {c : Char} (h : c ∈ mask_stars) : c = '*' := by
  simp only [mask_stars, List.mem_cons, List.not_mem_nil, or_false] at h
  rcases h with h | h | h | h | h <;> exact h

lemma suffix_append_cases {α : Type} (a b t : List α) (h : t <:+ a ++ b) :
    t <:+ b ∨ ∃ a2, a2 <:+ a ∧ a2 ≠ [] ∧ t = a2 ++ b := by
  induction a with
  | nil => exact Or.inl (by simpa using h)
  | cons x a2 ih =>
    rw [List.cons_append] at h
    rcases List.suffix_cons_iff.mp h with he | h2
    · exact Or.inr ⟨x :: a2, List.suffix_refl _, by simp, by simpa using he⟩
    · rcases ih h2 with h3 | ⟨a3, ha3, hne, heq⟩
      · exact Or.inl h3
      · exact Or.inr ⟨a3, ha3.trans (List.suffix_cons _ _), hne, heq⟩

lemma replace_all_aux_carry (pat : List Char) (hstar : '*' ∉ pat) :
    ∀ (fuel : Nat) (rest p : List Char), rest.length < fuel → p ≠ [] →
      (∀ c ∈ p, c ∈ pat) → ¬ p <+: rest →
      ¬ p <+: replace_all_aux fuel rest pat mask_stars := by
  intro fuel
  induction fuel with
  | zero => intro rest p h; omega
  | succ f ih =>
    intro rest p hlen hp hsub hnp
    cases rest with
    | nil =>
      rw [replace_all_aux]
      intro hc
      exact hp (List.prefix_nil.mp hc)
    | cons c rest2 =>
      rw [replace_all_aux]
      by_cases hcond : pat ≠ [] ∧ pat.isPrefixOf (c :: rest2)
      · rw [if_pos hcond]
        intro hc
        obtain ⟨q, p2, rfl⟩ := List.exists_cons_of_ne_nil hp
        have hc2 : q :: p2 <+: '*' :: (['*', '*', '*', '*'] ++
            replace_all_aux f ((c :: rest2).drop pat.length) pat mask_stars) := hc
        have hq : q = '*' := (List.cons_prefix_cons.mp hc2).1
        have hmem : q ∈ pat := hsub q (List.mem_cons_self _ _)
        rw [hq] at hmem
        exact hstar hmem
      · rw [if_neg hcond]
        intro hc
        obtain ⟨q, p2, rfl⟩ := List.exists_cons_of_ne_nil hp
        obtain ⟨hqc, hp2⟩ := List.cons_prefix_cons.mp hc
        by_cases hp2e : p2 = []
        · subst hp2e
          subst hqc
          exact hnp (List.cons_prefix_cons.mpr ⟨rfl, List.nil_prefix⟩)
        · have hnp2 : ¬ p2 <+: rest2 := by
            intro hcc
            exact hnp (hqc ▸ List.cons_prefix_cons.mpr ⟨rfl, hcc⟩)
          have hsub2 : ∀ d ∈ p2, d ∈ pat := fun d hd =>
            hsub d (List.mem_cons_of_mem _ hd)
          have hlen2 : rest2.length < f := by
            simp only [List.length_cons] at hlen
            omega
          exact ih rest2 p2 hlen2 hp2e hsub2 hnp2 hp2

lemma replace_all_aux_suffix (pat : List Char) (hp : pat ≠ [])
    (hstar : '*' ∉ pat) :
    ∀ (fuel : Nat) (s t : List Char), s.length < fuel →
      t <:+ replace_all_aux fuel s pat mask_stars → ¬ pat <+: t := by
  intro fuel
  induction fuel with
  | zero => intro s t h; omega
  | succ f ih =>
    intro s t hlen ht
    cases s with
    | nil =>
      rw [replace_all_aux] at ht
      rw [List.suffix_nil.mp ht]
      intro hc
      exact hp (List.prefix_nil.mp hc)
    | cons c rest =>
      rw [replace_all_aux] at ht
      by_cases hcond : pat ≠ [] ∧ pat.isPrefixOf (c :: rest)
      · rw [if_pos hcond] at ht
        have hlen2 : ((c :: rest).drop pat.length).length < f := by
          have hp1 : 1 ≤ pat.length := List.length_pos.mpr hp
          simp only [List.length_drop, List.length_cons]
          simp only [List.length_cons] at hlen
          omega
        rcases suffix_append_cases mask_stars _ t ht with h2 | ⟨m2, hm2, hm2ne, rfl⟩
        · exact ih _ t hlen2 h2
        · intro hc
          obtain ⟨d, m3, rfl⟩ := List.exists_cons_of_ne_nil hm2ne
          obtain ⟨q, pat2, rfl⟩ := List.exists_cons_of_ne_nil hp
          have hd : d = '*' := mem_mask_stars (hm2.mem (List.mem_cons_self _ _))
          have hq : q = d := (List.cons_prefix_cons.mp hc).1
          refine hstar ?_
          rw [← hq.trans hd]
          exact List.mem_cons_self _ _
      · rw [if_neg hcond] at ht
        rcases List.suffix_cons_iff.mp ht with he | ht2
        · subst he
          intro hc
          obtain ⟨q, pat2, rfl⟩ := List.exists_cons_of_ne_nil hp
          obtain ⟨hqc, hpat2⟩ := List.cons_prefix_cons.mp hc
          have hnpfx : ¬ (q :: pat2) <+: (c :: rest) := by
            intro hcc
            exact hcond ⟨hp, List.isPrefixOf_iff_prefix.mpr hcc⟩
          by_cases hpe : pat2 = []
          · subst hpe
            subst hqc
            exact hnpfx (List.cons_prefix_cons.mpr ⟨rfl, List.nil_prefix⟩)
          · have hnp2 : ¬ pat2 <+: rest := by
              intro hcc
              exact hnpfx (hqc ▸ List.cons_prefix_cons.mpr ⟨rfl, hcc⟩)
            have hlen2 : rest.length < f := by
              simp only [List.length_cons] at hlen
              omega
            exact replace_all_aux_carry (q :: pat2) hstar f rest pat2 hlen2 hpe
              (fun d hd => List.mem_cons_of_mem _ hd) hnp2 hpat2
        · have hlen2 : rest.length < f := by
            simp only [List.length_cons] at hlen
            omega
          exact ih rest t hlen2 ht2

lemma replace_all_no_occurrence (s pat : List Char) (hp : pat ≠ [])
    (hstar : '*' ∉ pat) :
    str_contains (replace_all s pat mask_stars) pat = false := by
  cases hc : str_contains (replace_all s pat mask_stars) pat with
  | false => rfl
  | true =>
    obtain ⟨t, ht, hpre⟩ := (str_contains_iff _ _).mp hc
    rw [replace_all] at ht
    exact absurd hpre
      (replace_all_aux_suffix pat hp hstar (s.length + 1) s t (by omega) ht)

/-- **C9 (counterexample to the claim as stated).** For the token `**` the
masked output of `_mask_url` still contains the token in cleartext: the
replacement string `*****` itself re-creates an occurrence. -/
theorem token_masking_counterexample :
    mask_url (some "**") "a**b" = "a*****b" ∧
    str_contains (mask_url (some "**") "a**b").data ("**" : String).data
      = true := by
  constructor
  · rfl
  · decide

/-- **C9 (amended).** For every nonempty token that does not contain the
mask character `'*'` (GitHub tokens never do), the URL and error strings
logged when a wire-protocol git command fails are passed through
`_mask_url` and never contain the token in cleartext — every occurrence of
the token having been replaced by `'*****'` — and likewise for any string
masked by `_mask_url`. -/
theorem token_never_logged (token url err : String)
    (hne : token.data ≠ []) (hstar : '*' ∉ token.data) :
    str_contains ((ls_remote_failure_log (some token) url err).1).data
        token.data = false ∧
    str_contains ((ls_remote_failure_log (some token) url err).2).data
        token.data = false ∧
    ∀ u : String, str_contains (mask_url (some token) u).data token.data
        = false := by
  have hmu : ∀ u : String,
      str_contains (mask_url (some token) u).data token.data = false := by
    intro u
    rw [mask_url]
    by_cases hcond : (!token.data.isEmpty && str_contains u.data token.data)
        = true
    · rw [if_pos hcond]
      exact replace_all_no_occurrence u.data token.data hne hstar
    · rw [if_neg hcond]
      have hcond2 : (!token.data.isEmpty && str_contains u.data token.data)
          = false := by
        cases hq : (!token.data.isEmpty && str_contains u.data token.data) with
        | false => rfl
        | true => exact absurd hq hcond
      rcases Bool.and_eq_false_iff.mp hcond2 with h1 | h1
      · refine absurd ?_ hne
        have : token.data.isEmpty = true := by
          cases hq : token.data.isEmpty with
          | true => rfl
          | false => rw [hq] at h1; cases h1
        exact List.isEmpty_iff.mp this
      · exact h1
  exact ⟨hmu url, hmu err, hmu⟩

/-- Witness for the amended C9 at a concrete token and log strings. -/
theorem token_never_logged_witness :
    (("tok" : String).data ≠ [] ∧ '*' ∉ ("tok" : String).data) ∧
    str_contains ((ls_remote_failure_log (some "tok")
        "https://tok@github.com/a/b.git" "auth failed for tok").1).data
        ("tok" : String).data = false ∧
    str_contains ((ls_remote_failure_log (some "tok")
        "https://tok@github.com/a/b.git" "auth failed for tok").2).data
        ("tok" : String).data = false :=
  have h := token_never_logged "tok" "https://tok@github.com/a/b.git"
    "auth failed for tok" (by decide) (by decide)
  ⟨⟨by decide, by decide⟩, h.1, h.2.1⟩

/-! ## C5 — release-tag fallback to the default branch -/

/-- **C5 (counterexample to the claim as stated).** With no cache on disk
and an advertisement holding only the default branch, the release tag fails
to resolve and the fallback resolves the default branch — but because the
first (live) lookup persisted the advertisement to the cache file, the
fallback lookup is served from that cache and recorded via
`inc_cache_hits`, not as a live lookup. -/
theorem commit_fallback_counterexample :
    (commit_process_repo ⟨none, some [⟨"SHA1", "refs/heads/main"⟩], 1000, 604800⟩
        "main" (some "v9")).target =
      some ⟨"main", "branch", "SHA1", "SHA1"⟩ ∧
    (commit_process_repo ⟨none, some [⟨"SHA1", "refs/heads/main"⟩], 1000, 604800⟩
        "main" (some "v9")).mark = .cache_hit ∧
    StatMark.cache_hit ≠ StatMark.api_request := by
  refine ⟨by decide, by decide, by decide⟩

/-- **C5 (amended).** Whenever the chosen ref is a release tag and
`resolve_ref` returns no hash for it, `process_repo` resolves the default
branch instead — through `resolve_ref`'s priority order (exact name, then
`refs/tags/`, then `refs/heads/`) — against the cache state left by the
first lookup, and records that resolution according to the fallback
lookup's own cache flag: a cache hit when the (possibly just-written) ref
cache serves it, a live lookup otherwise. -/
theorem commit_fallback (env : GitEnv) (db tag : String)
    (hfail : (resolve_ref env true tag).sha = none) :
    (commit_process_repo env db (some tag)).target =
      (match (resolve_ref { env with
          cache_file := (resolve_ref env true tag).cache_after } true db).sha with
       | some sha => some ⟨db, "branch", sha, str_take sha 7⟩
       | none => none) ∧
    ((commit_process_repo env db (some tag)).mark = .cache_hit ↔
      (resolve_ref { env with
          cache_file := (resolve_ref env true tag).cache_after } true db).was_cached
        = true) ∧
    (resolve_ref { env with
        cache_file := (resolve_ref env true tag).cache_after } true db).sha =
      resolve_priority_spec
        (get_repo_refs { env with
          cache_file := (resolve_ref env true tag).cache_after } true).refs db := by
  have hisnone : (resolve_ref env true tag).sha.isNone = true := by
    rw [hfail]; rfl
  have hcond : ((resolve_ref env true tag).sha.isNone &&
      ("release" == "release")) = true := by
    rw [hisnone]; rfl
  constructor
  · rw [commit_process_repo]
    simp only [hcond, if_true]
    cases hsha : (resolve_ref { env with
        cache_file := (resolve_ref env true tag).cache_after } true db).sha with
    | none => simp [hsha]
    | some sha => simp [hsha]
  constructor
  · rw [commit_process_repo]
    simp only [hcond, if_true]
    cases hsha : (resolve_ref { env with
        cache_file := (resolve_ref env true tag).cache_after } true db).sha with
    | none =>
      cases hwc : (resolve_ref { env with
          cache_file := (resolve_ref env true tag).cache_after } true db).was_cached with
      | false => simp [hsha, hwc]
      | true => simp [hsha, hwc]
    | some sha =>
      cases hwc : (resolve_ref { env with
          cache_file := (resolve_ref env true tag).cache_after } true db).was_cached with
      | false => simp [hsha, hwc]
      | true => simp [hsha, hwc]
  · rfl

/-- Witness for the amended C5 at the concrete counterexample environment:
the tag `v9` fails to resolve, and the fallback resolution of `main` is
recorded per its own (cached) flag. -/
theorem commit_fallback_witness :
    (resolve_ref ⟨none, some [⟨"SHA1", "refs/heads/main"⟩], 1000, 604800⟩
        true "v9").sha = none ∧
    (commit_process_repo ⟨none, some [⟨"SHA1", "refs/heads/main"⟩], 1000, 604800⟩
        "main" (some "v9")).target =
      (match (resolve_ref (GitEnv.mk
          ((resolve_ref ⟨none, some [⟨"SHA1", "refs/heads/main"⟩], 1000, 604800⟩
            true "v9").cache_after)
          (some [⟨"SHA1", "refs/heads/main"⟩]) 1000 604800) true "main").sha with
       | some sha => some ⟨"main", "branch", sha, str_take sha 7⟩
       | none => none) ∧
    (commit_process_repo ⟨none, some [⟨"SHA1", "refs/heads/main"⟩], 1000, 604800⟩
        "main" (some "v9")).mark = .cache_hit := by
  have h := commit_fallback ⟨none, some [⟨"SHA1", "refs/heads/main"⟩], 1000, 604800⟩
    "main" "v9" (by decide)
  exact ⟨by decide, h.1, h.2.1.mpr (by decide)⟩

/-! ## C7 — content-addressable SBOM cache -/

lemma chars_le_total : ∀ x y : List Char, chars_le x y = true ∨ chars_le y x = true := by
  intro x
  induction x with
  | nil => intro y; exact Or.inl rfl
  | cons c cs ih =>
    intro y
    cases y with
    | nil => exact Or.inr rfl
    | cons d ds =>
      rw [chars_le, chars_le]
      by_cases hcd : c.toNat < d.toNat
      · exact Or.inl (by rw [if_pos hcd])
      · by_cases hdc : d.toNat < c.toNat
        · exact Or.inr (by rw [if_pos hdc])
        · rcases ih ds with h | h
          · exact Or.inl (by rw [if_neg hcd, if_neg hdc]; exact h)
          · exact Or.inr (by rw [if_neg hdc, if_neg hcd]; exact h)

lemma chars_le_trans : ∀ x y z : List Char, chars_le x y = true →
    chars_le y z = true → chars_le x z = true := by
  intro x
  induction x with
  | nil => intro y z h1 h2; rfl
  | cons c cs ih =>
    intro y z h1 h2
    cases y with
    | nil => rw [chars_le] at h1; cases h1
    | cons d ds =>
      cases z with
      | nil => rw [chars_le] at h2; cases h2
      | cons e es =>
        rw [chars_le] at h1 h2 ⊢
        by_cases hcd : c.toNat < d.toNat
        · by_cases hde : d.toNat < e.toNat
          · rw [if_pos (by omega : c.toNat < e.toNat)]
          · by_cases hed : e.toNat < d.toNat
            · rw [if_neg hde, if_pos hed] at h2; cases h2
            · rw [if_pos (by omega : c.toNat < e.toNat)]
        · by_cases hdc : d.toNat < c.toNat
          · rw [if_neg hcd, if_pos hdc] at h1; cases h1
          · rw [if_neg hcd, if_neg hdc] at h1
            by_cases hde : d.toNat < e.toNat
            · rw [if_pos (by omega : c.toNat < e.toNat)]
            · by_cases hed : e.toNat < d.toNat
              · rw [if_neg hde, if_pos hed] at h2; cases h2
              · rw [if_neg hde, if_neg hed] at h2
                rw [if_neg (by omega : ¬ c.toNat < e.toNat),
                  if_neg (by omega : ¬ e.toNat < c.toNat)]
                exact ih ds es h1 h2

lemma chars_le_antisymm : ∀ x y : List Char, chars_le x y = true →
    chars_le y x = true → x = y := by
  intro x
  induction x with
  | nil =>
    intro y h1 h2
    cases y with
    | nil => rfl
    | cons d ds => rw [chars_le] at h2; cases h2
  | cons c cs ih =>
    intro y h1 h2
    cases y with
    | nil => rw [chars_le] at h1; cases h1
    | cons d ds =>
      rw [chars_le] at h1 h2
      by_cases hcd : c.toNat < d.toNat
      · rw [if_neg (by omega : ¬ d.toNat < c.toNat), if_pos hcd] at h2
        cases h2
      · by_cases hdc : d.toNat < c.toNat
        · rw [if_neg hcd, if_pos hdc] at h1; cases h1
        · rw [if_neg hcd, if_neg hdc] at h1
          rw [if_neg hdc, if_neg hcd] at h2
          have heq : c.toNat = d.toNat := by omega
          have hc : c = d := Char.eq_of_val_eq (UInt32.ext heq)
          rw [hc, ih ds h1 h2]

instance : IsTotal DirFile dirfile_le := ⟨fun a b => chars_le_total _ _⟩

instance : IsTrans DirFile dirfile_le := ⟨fun _ _ _ => chars_le_trans _ _ _⟩

lemma string_data_inj {a b : String} (h : a.data = b.data) : a = b := by
  cases a
  cases b
  exact congrArg String.mk h

instance : IsAntisymm DirFile (fun a b => dirfile_le a b ∧ a.1 ≠ b.1) :=
  ⟨fun a b h1 h2 =>
    absurd (string_data_inj (chars_le_antisymm _ _ h1.1 h2.1)) h1.2⟩

lemma sorted_dir_files_eq (f1 f2 : List DirFile)
    (hperm : f1.Perm f2) (hnd : (f1.map Prod.fst).Nodup) :
    sorted_dir_files f1 = sorted_dir_files f2 := by
  have hp1 : (sorted_dir_files f1).Perm f1 := List.perm_insertionSort _ _
  have hp2 : (sorted_dir_files f2).Perm f2 := List.perm_insertionSort _ _
  have hs1 : List.Sorted dirfile_le (sorted_dir_files f1) :=
    List.sorted_insertionSort _ _
  have hs2 : List.Sorted dirfile_le (sorted_dir_files f2) :=
    List.sorted_insertionSort _ _
  have hperm12 : (sorted_dir_files f1).Perm (sorted_dir_files f2) :=
    hp1.trans (hperm.trans hp2.symm)
  have hstrict : ∀ (l : List DirFile), List.Sorted dirfile_le l →
      (l.map Prod.fst).Nodup →
      List.Sorted (fun a b : DirFile => dirfile_le a b ∧ a.1 ≠ b.1) l := by
    intro l hsort hnodup
    have hne : List.Pairwise (fun a b : DirFile => a.1 ≠ b.1) l :=
      List.pairwise_map.mp hnodup
    exact hsort.and hne
  have hnd1 : ((sorted_dir_files f1).map Prod.fst).Nodup :=
    ((hp1.map Prod.fst).nodup_iff).mpr hnd
  have hnd2 : ((sorted_dir_files f2).map Prod.fst).Nodup := by
    refine ((hp2.map Prod.fst).nodup_iff).mpr ?_
    exact ((hperm.map Prod.fst).nodup_iff).mp hnd
  exact List.eq_of_perm_of_sorted hperm12 (hstrict _ hs1 hnd1)
    (hstrict _ hs2 hnd2)

/-- **C7 (amended).** For any two directories whose multisets of (relative
path, file bytes) pairs coincide (paths within a directory are distinct),
`_calculate_dir_hash` produces the same digest regardless of enumeration
order; and when a cache entry exists for the digest, `force` is off, and
the stage's output file does not already exist (otherwise the earlier
skip-if-exists branch returns first), the cached bytes are copied verbatim
to the output file and the external `syft` tool is not invoked. -/
theorem sbom_digest_deterministic_and_cache_hit (f1 f2 : List DirFile)
    (hperm : f1.Perm f2) (hnd : (f1.map Prod.fst).Nodup)
    (inp : SbomInput) (p : String) (content : List Nat)
    (hpath : inp.local_content_path = some p)
    (hex : inp.path_exists = true) (hrel : inp.rel_path_valid = true)
    (hout : inp.output_exists = false) (hforce : inp.force = false)
    (hcache : sbom_cache_lookup inp.cache (calculate_dir_hash inp.dir_files)
      = some content) :
    calculate_dir_hash f1 = calculate_dir_hash f2 ∧
    sbom_process_repo inp = .cache_hit content ∧
    syft_invoked (sbom_process_repo inp) = false ∧
    sbom_output_written (sbom_process_repo inp) = some content := by
  have hdig : calculate_dir_hash f1 = calculate_dir_hash f2 := by
    rw [calculate_dir_hash, calculate_dir_hash, sorted_dir_files_eq f1 f2 hperm hnd]
  have hrun : sbom_process_repo inp = .cache_hit content := by
    rw [sbom_process_repo, hpath]
    simp only [hex, hrel, hout, hforce, Bool.not_true, Bool.not_false,
      Bool.false_eq_true, if_false, Bool.true_and, Bool.and_false, if_true]
    rw [hcache]
  exact ⟨hdig, hrun, by rw [hrun]; rfl, by rw [hrun]; rfl⟩

/-- Witness for the amended C7 at two concrete directory enumerations and a
concrete warm-cache run. -/
theorem sbom_digest_deterministic_and_cache_hit_witness :
    calculate_dir_hash [("b", [2]), ("a", [1])] =
      calculate_dir_hash [("a", [1]), ("b", [2])] ∧
    sbom_process_repo ⟨some "p", true, true, false, false, [("b", [2]), ("a", [1])],
      [(calculate_dir_hash [("b", [2]), ("a", [1])], [9, 9])], some [7]⟩ =
      .cache_hit [9, 9] ∧
    syft_invoked (sbom_process_repo ⟨some "p", true, true, false, false,
      [("b", [2]), ("a", [1])],
      [(calculate_dir_hash [("b", [2]), ("a", [1])], [9, 9])], some [7]⟩) = false := by
  have h := sbom_digest_deterministic_and_cache_hit
    [("b", [2]), ("a", [1])] [("a", [1]), ("b", [2])]
    (List.Perm.swap _ _ _) (by decide)
    ⟨some "p", true, true, false, false, [("b", [2]), ("a", [1])],
      [(calculate_dir_hash [("b", [2]), ("a", [1])], [9, 9])], some [7]⟩
    "p" [9, 9] rfl rfl rfl rfl rfl (by decide)
  exact ⟨h.1, h.2.1, h.2.2.1⟩

/-- **C7 (counterexample to the claim as stated).** When the stage's output
file already exists, the run returns at the skip-if-exists branch: even
though a cache entry exists for the directory's digest and `force` is off,
the cached bytes are not copied to the output file. -/
theorem sbom_cache_hit_counterexample :
    sbom_process_repo ⟨some "p", true, true, true, false, [("a", [1])],
      [(calculate_dir_hash [("a", [1])], [9, 9])], some [7]⟩ =
      .skipped_existing ∧
    sbom_process_repo ⟨some "p", true, true, true, false, [("a", [1])],
      [(calculate_dir_hash [("a", [1])], [9, 9])], some [7]⟩ ≠
      .cache_hit [9, 9] ∧
    sbom_cache_lookup [(calculate_dir_hash [("a", [1])], [9, 9])]
      (calculate_dir_hash [("a", [1])]) = some [9, 9] := by
  refine ⟨by decide, by decide, by decide⟩

/-! ## C1 — crawler lemmas: saving, search semantics, pagination -/

lemma save_all_visited (l : List SRepo) (st : Storage) (i : Nat) :
    i ∈ (save_all st l).visited_ids ↔
      i ∈ st.visited_ids ∨ i ∈ l.map SRepo.id := by
  induction l generalizing st with
  | nil => simp [save_all]
  | cons r rest ih =>
    rw [save_all, List.foldl_cons, ← save_all]
    rw [ih]
    rw [Storage.save_mem_visited]
    simp only [List.map_cons, List.mem_cons]
    tauto

lemma save_all_wf (l : List SRepo) (st : Storage) (h : st.Wf) :
    (save_all st l).Wf := by
  induction l generalizing st with
  | nil => exact h
  | cons r rest ih =>
    rw [save_all, List.foldl_cons, ← save_all]
    exact ih _ (Storage.save_wf h)

lemma save_all_mono (l : List SRepo) (st : Storage) (i : Nat)
    (h : i ∈ st.visited_ids) : i ∈ (save_all st l).visited_ids :=
  (save_all_visited l st i).mpr (Or.inl h)

lemma mem_search_results (pop : List SRepo) (sc : StarCond)
    (cr : Option (Nat × Nat)) (r : SRepo) :
    r ∈ search_results pop sc cr ↔
      r ∈ pop ∧ SRepo.matches sc cr r = true := by
  rw [search_results]
  rw [(List.perm_insertionSort stars_ge _).mem_iff]
  exact List.mem_filter

lemma length_search_results (pop : List SRepo) (sc : StarCond)
    (cr : Option (Nat × Nat)) :
    (search_results pop sc cr).length = pop.countP (SRepo.matches sc cr) := by
  rw [search_results, (List.perm_insertionSort stars_ge _).length_eq,
    List.countP_eq_length_filter]

lemma sorted_search_results (pop : List SRepo) (sc : StarCond)
    (cr : Option (Nat × Nat)) :
    List.Sorted stars_ge (search_results pop sc cr) :=
  List.sorted_insertionSort stars_ge _

lemma collect_pages_aux_eq : ∀ (n : Nat) (l : List SRepo),
    collect_pages_aux n l = l.take (100 * n) := by
  intro n
  induction n with
  | zero => intro l; rw [collect_pages_aux, Nat.mul_zero, List.take_zero]
  | succ m ih =>
    intro l
    rw [collect_pages_aux]
    by_cases h0 : (l.take 100).isEmpty = true
    · rw [if_pos h0]
      have hl : l = [] := by
        rcases (List.take_eq_nil_iff).mp (List.isEmpty_iff.mp h0) with h | h
        · omega
        · exact h
      subst hl
      simp
    · rw [if_neg h0]
      by_cases h1 : (l.take 100).length < 100
      · rw [if_pos h1]
        have hlen : l.length < 100 := by
          rw [List.length_take] at h1
          omega
        rw [List.take_of_length_le (by omega),
          List.take_of_length_le (by
            have : 100 ≤ 100 * (m + 1) := by omega
            omega)]
      · rw [if_neg h1]
        rw [ih]
        have : 100 * (m + 1) = 100 + 100 * m := by ring
        rw [this, List.take_add]

lemma collect_pages_eq (l : List SRepo) : collect_pages l = l.take 1000 := by
  rw [collect_pages, collect_pages_aux_eq]

lemma foldl_min_le_init : ∀ (l : List SRepo) (a : Nat),
    l.foldl (fun m x => min m x.stars) a ≤ a := by
  intro l
  induction l with
  | nil => intro a; exact Nat.le_refl a
  | cons r rest ih =>
    intro a
    rw [List.foldl_cons]
    exact Nat.le_trans (ih _) (Nat.min_le_left _ _)

lemma foldl_min_le_mem : ∀ (l : List SRepo) (a : Nat) (r : SRepo), r ∈ l →
    l.foldl (fun m x => min m x.stars) a ≤ r.stars := by
  intro l
  induction l with
  | nil => intro a r h; cases h
  | cons x rest ih =>
    intro a r h
    rw [List.foldl_cons]
    rcases List.mem_cons.mp h with he | hm
    · subst he
      exact Nat.le_trans (foldl_min_le_init _ _) (Nat.min_le_right _ _)
    · exact ih _ r hm

lemma foldl_min_attained : ∀ (l : List SRepo) (a : Nat),
    l.foldl (fun m x => min m x.stars) a = a ∨
      ∃ r ∈ l, l.foldl (fun m x => min m x.stars) a = r.stars := by
  intro l
  induction l with
  | nil => intro a; exact Or.inl rfl
  | cons x rest ih =>
    intro a
    rw [List.foldl_cons]
    rcases ih (min a x.stars) with h | ⟨r, hr, he⟩
    · rw [h]
      rcases Nat.le_total a x.stars with hax | hxa
      · exact Or.inl (Nat.min_eq_left hax)
      · exact Or.inr ⟨x, List.mem_cons_self _ _, Nat.min_eq_right hxa⟩
    · exact Or.inr ⟨r, List.mem_cons_of_mem _ hr, he⟩

lemma batch_min_stars_le (batch : List SRepo) (r : SRepo) (h : r ∈ batch) :
    batch_min_stars batch ≤ r.stars :=
  foldl_min_le_mem batch _ r h

lemma batch_min_stars_attained (batch : List SRepo) (hne : batch ≠ [])
    (hb : ∀ r ∈ batch, r.stars < 999999999) :
    ∃ r ∈ batch, batch_min_stars batch = r.stars := by
  rcases foldl_min_attained batch 999999999 with h | h
  · obtain ⟨r0, hr0⟩ := List.exists_mem_of_ne_nil batch hne
    have h1 := batch_min_stars_le batch r0 hr0
    have h2 := hb r0 hr0
    unfold batch_min_stars at h1
    rw [h] at h1
    omega
  · exact h

lemma matches_exact (v : Nat) (dr : Nat × Nat) (r : SRepo) :
    SRepo.matches (.exact v) (some dr) r = true ↔
      r.stars = v ∧ dr.1 ≤ r.created_day ∧ r.created_day ≤ dr.2 := by
  rw [SRepo.matches, star_matches, created_matches]
  simp [Bool.and_eq_true, beq_iff_eq, and_assoc]

lemma matches_between (lo hi : Nat) (r : SRepo) :
    SRepo.matches (.between lo hi) none r = true ↔
      lo ≤ r.stars ∧ r.stars ≤ hi := by
  rw [SRepo.matches, star_matches, created_matches]
  simp [Bool.and_eq_true]

lemma matches_gt (n : Nat) (r : SRepo) :
    SRepo.matches (.gt n) none r = true ↔ n < r.stars := by
  rw [SRepo.matches, star_matches, created_matches]
  simp

lemma cap_complete (pop : List SRepo) (sc : StarCond) (cr : Option (Nat × Nat))
    (hb : ∀ x ∈ pop, x.stars < 999999999)
    (hlen : ((search_results pop sc cr).take 1000).length = 1000)
    (r : SRepo) (hr : r ∈ pop) (hm : SRepo.matches sc cr r = true)
    (hgt : batch_min_stars ((search_results pop sc cr).take 1000) < r.stars) :
    r ∈ (search_results pop sc cr).take 1000 := by
  have hrres : r ∈ search_results pop sc cr :=
    (mem_search_results _ _ _ _).mpr ⟨hr, hm⟩
  by_contra hnot
  have hsplit : r ∈ (search_results pop sc cr).take 1000 ∨
      r ∈ (search_results pop sc cr).drop 1000 := by
    rw [← List.mem_append, List.take_append_drop]
    exact hrres
  rcases hsplit with h | h
  · exact hnot h
  have hne : (search_results pop sc cr).take 1000 ≠ [] := by
    intro h0
    rw [h0] at hlen
    cases hlen
  have hb2 : ∀ x ∈ (search_results pop sc cr).take 1000, x.stars < 999999999 :=
    fun x hx =>
      hb x ((mem_search_results _ _ _ _).mp (List.mem_of_mem_take hx)).1
  obtain ⟨m, hmm, hme⟩ := batch_min_stars_attained _ hne hb2
  have hrel := (sorted_search_results pop sc cr).rel_of_mem_take_of_mem_drop hmm h
  have hrel2 : r.stars ≤ m.stars := hrel
  omega

/-! ### Time slicing -/

lemma time_slice_mono (pop : List SRepo) (v : Nat) :
    ∀ (fuel s e : Nat) (st : Storage) (i : Nat),
      i ∈ st.visited_ids → i ∈ (time_slice pop v fuel s e st).visited_ids := by
  intro fuel
  induction fuel with
  | zero => intro s e st i h; rw [time_slice]; exact h
  | succ f ih =>
    intro s e st i h
    rw [time_slice]
    by_cases hc : 1000 ≤ (collect_pages (search_results pop (.exact v)
        (some (s / 86400, e / 86400)))).length
    · rw [if_pos hc]
      exact ih _ _ _ _ (ih _ _ _ _ h)
    · rw [if_neg hc]
      exact save_all_mono _ _ _ h

lemma time_slice_sub (pop : List SRepo) (v : Nat) :
    ∀ (fuel s e : Nat) (st : Storage) (i : Nat),
      i ∈ (time_slice pop v fuel s e st).visited_ids →
      i ∈ st.visited_ids ∨ ∃ r ∈ pop, r.id = i ∧ r.stars = v := by
  intro fuel
  induction fuel with
  | zero => intro s e st i h; rw [time_slice] at h; exact Or.inl h
  | succ f ih =>
    intro s e st i h
    rw [time_slice] at h
    by_cases hc : 1000 ≤ (collect_pages (search_results pop (.exact v)
        (some (s / 86400, e / 86400)))).length
    · rw [if_pos hc] at h
      rcases ih _ _ _ _ h with h2 | h2
      · exact ih _ _ _ _ h2
      · exact Or.inr h2
    · rw [if_neg hc] at h
      rcases (save_all_visited _ _ _).mp h with h2 | h2
      · exact Or.inl h2
      · right
        obtain ⟨r, hrmem, hrid⟩ := List.mem_map.mp h2
        have hr2 := (mem_search_results _ _ _ _).mp
          (List.mem_of_mem_take (by rwa [← collect_pages_eq]))
        exact ⟨r, hr2.1, hrid, ((matches_exact _ _ _).mp hr2.2).1⟩

lemma time_slice_wf (pop : List SRepo) (v : Nat) :
    ∀ (fuel s e : Nat) (st : Storage), st.Wf →
      (time_slice pop v fuel s e st).Wf := by
  intro fuel
  induction fuel with
  | zero => intro s e st h; rw [time_slice]; exact h
  | succ f ih =>
    intro s e st h
    rw [time_slice]
    by_cases hc : 1000 ≤ (collect_pages (search_results pop (.exact v)
        (some (s / 86400, e / 86400)))).length
    · rw [if_pos hc]
      exact ih _ _ _ (ih _ _ _ h)
    · rw [if_neg hc]
      exact save_all_wf _ _ h

lemma time_slice_complete (pop : List SRepo) (v : Nat)
    (hdense : ∀ r ∈ pop, pop.countP
      (fun x => x.stars == r.stars && x.created_day == r.created_day) ≤ 999) :
    ∀ (fuel s e : Nat) (st : Storage), s ≤ e → e - s + 1 ≤ fuel →
      ∀ r ∈ pop, r.stars = v → s / 86400 ≤ r.created_day →
      r.created_day ≤ e / 86400 →
      r.id ∈ (time_slice pop v fuel s e st).visited_ids := by
  intro fuel
  induction fuel with
  | zero => intro s e st hse hf; omega
  | succ f ih =>
    intro s e st hse hf r hr hstars hd1 hd2
    rw [time_slice]
    by_cases hc : 1000 ≤ (collect_pages (search_results pop (.exact v)
        (some (s / 86400, e / 86400)))).length
    · rw [if_pos hc]
      have hcount : 1000 ≤ pop.countP (SRepo.matches (.exact v)
          (some (s / 86400, e / 86400))) := by
        rw [collect_pages_eq, List.length_take, length_search_results] at hc
        exact (Nat.le_min.mp hc).2
      have hdays : s / 86400 < e / 86400 := by
        by_contra hnd
        have hdle : s / 86400 ≤ e / 86400 := Nat.div_le_div_right hse
        have hdse : s / 86400 = e / 86400 := by omega
        have hpos : 0 < pop.countP (SRepo.matches (.exact v)
            (some (s / 86400, e / 86400))) := by omega
        obtain ⟨x0, hx0, hmx0⟩ := List.countP_pos.mp hpos
        obtain ⟨hx0s, hx0d1, hx0d2⟩ := (matches_exact _ _ _).mp hmx0
        have hx0day : x0.created_day = s / 86400 := by
          simp only at hx0d1 hx0d2
          omega
        have hmono : pop.countP (SRepo.matches (.exact v)
            (some (s / 86400, e / 86400))) ≤ pop.countP
            (fun x => x.stars == x0.stars && x.created_day == x0.created_day) := by
          apply List.countP_mono_left
          intro y hy hmy
          obtain ⟨hys, hyd1, hyd2⟩ := (matches_exact _ _ _).mp hmy
          simp only at hyd1 hyd2
          have hyday : y.created_day = s / 86400 := by omega
          simp [beq_iff_eq, hys, hx0s, hyday, hx0day]
        have := hdense x0 hx0
        omega
      have hslt : s < e := by
        by_contra hh
        have he : e ≤ s := by omega
        have hdiv : e / 86400 ≤ s / 86400 := Nat.div_le_div_right he
        omega
      have hhalf : (e - s) / 2 < e - s := Nat.div_lt_self (by omega) (by omega)
      by_cases hrd : r.created_day ≤ (s + (e - s) / 2) / 86400
      · refine time_slice_mono pop v f _ _ _ _ ?_
        refine ih s (s + (e - s) / 2) st (by omega) (by omega) r hr hstars hd1 hrd
      · have hstep : (s + (e - s) / 2 + 1) / 86400 ≤
            (s + (e - s) / 2) / 86400 + 1 := by
          have h1 : s + (e - s) / 2 + 1 ≤ s + (e - s) / 2 + 86400 := by omega
          have h2 : (s + (e - s) / 2 + 1) / 86400 ≤
              (s + (e - s) / 2 + 86400) / 86400 := Nat.div_le_div_right h1
          rw [Nat.add_div_right _ (by omega : 0 < 86400)] at h2
          exact h2
        refine ih (s + (e - s) / 2 + 1) e _ (by omega) (by omega) r hr hstars
          (by omega) hd2
    · rw [if_neg hc]
      have hall : collect_pages (search_results pop (.exact v)
          (some (s / 86400, e / 86400))) = search_results pop (.exact v)
          (some (s / 86400, e / 86400)) := by
        rw [collect_pages_eq]
        apply List.take_of_length_le
        rw [collect_pages_eq, List.length_take] at hc
        omega
      rw [hall]
      refine (save_all_visited _ _ _).mpr (Or.inr ?_)
      refine List.mem_map_of_mem SRepo.id ?_
      refine (mem_search_results _ _ _ _).mpr ⟨hr, ?_⟩
      exact (matches_exact _ _ _).mpr ⟨hstars, hd1, hd2⟩

/-! ### The star-descent loop -/

lemma run_batch_some_eq (pop : List SRepo) (m c : Nat) :
    run_batch pop m (some c) =
      (search_results pop (.between m c) none).take 1000 := by
  rw [run_batch, run_star_cond, collect_pages_eq]

lemma run_batch_none_eq (pop : List SRepo) (m : Nat) :
    run_batch pop m none = (search_results pop (.gt m) none).take 1000 := by
  rw [run_batch, run_star_cond, collect_pages_eq]

lemma run_batch_len_le (pop : List SRepo) (m : Nat) (cur : Option Nat) :
    (run_batch pop m cur).length ≤ 1000 := by
  cases cur with
  | none =>
    rw [run_batch_none_eq, List.length_take]
    exact Nat.min_le_left _ _
  | some c =>
    rw [run_batch_some_eq, List.length_take]
    exact Nat.min_le_left _ _

lemma run_batch_mem_between (pop : List SRepo) (m c : Nat) (r : SRepo)
    (h : r ∈ run_batch pop m (some c)) :
    r ∈ pop ∧ m ≤ r.stars ∧ r.stars ≤ c := by
  rw [run_batch_some_eq] at h
  have h2 := (mem_search_results _ _ _ _).mp (List.mem_of_mem_take h)
  exact ⟨h2.1, (matches_between _ _ _).mp h2.2⟩

lemma run_batch_mem_gt (pop : List SRepo) (m : Nat) (r : SRepo)
    (h : r ∈ run_batch pop m none) :
    r ∈ pop ∧ m < r.stars := by
  rw [run_batch_none_eq] at h
  have h2 := (mem_search_results _ _ _ _).mp (List.mem_of_mem_take h)
  exact ⟨h2.1, (matches_gt _ _).mp h2.2⟩

lemma run_batch_short_all (pop : List SRepo) (m : Nat) (cur : Option Nat)
    (hshort : (run_batch pop m cur).length < 1000) (r : SRepo) (hr : r ∈ pop)
    (hm : SRepo.matches (run_star_cond m cur) none r = true) :
    r ∈ run_batch pop m cur := by
  have hall : run_batch pop m cur = search_results pop (run_star_cond m cur) none := by
    rw [run_batch, collect_pages_eq]
    apply List.take_of_length_le
    rw [run_batch, collect_pages_eq, List.length_take] at hshort
    omega
  rw [hall]
  exact (mem_search_results _ _ _ _).mpr ⟨hr, hm⟩

lemma run_batch_empty (pop : List SRepo) (m : Nat) (cur : Option Nat)
    (hzero : (run_batch pop m cur).length = 0) (r : SRepo) (hr : r ∈ pop)
    (hm : SRepo.matches (run_star_cond m cur) none r = true) : False := by
  have := run_batch_short_all pop m cur (by omega) r hr hm
  rw [List.length_eq_zero.mp hzero] at this
  cases this

lemma run_batch_cap (pop : List SRepo) (m : Nat) (cur : Option Nat)
    (hb : ∀ x ∈ pop, x.stars < 999999999)
    (hfull : ¬ (run_batch pop m cur).length < 1000) (r : SRepo) (hr : r ∈ pop)
    (hm : SRepo.matches (run_star_cond m cur) none r = true)
    (hgt : batch_min_stars (run_batch pop m cur) < r.stars) :
    r ∈ run_batch pop m cur := by
  have hlen : (run_batch pop m cur).length = 1000 := by
    have := run_batch_len_le pop m cur
    omega
  rw [run_batch, collect_pages_eq] at hlen hgt ⊢
  exact cap_complete pop _ none hb hlen r hr hm hgt

lemma run_batch_minb_between (pop : List SRepo) (m c : Nat)
    (hb : ∀ x ∈ pop, x.stars < 999999999)
    (hne : run_batch pop m (some c) ≠ []) :
    m ≤ batch_min_stars (run_batch pop m (some c)) ∧
      batch_min_stars (run_batch pop m (some c)) ≤ c := by
  have hb2 : ∀ x ∈ run_batch pop m (some c), x.stars < 999999999 :=
    fun x hx => hb x (run_batch_mem_between pop m c x hx).1
  obtain ⟨r0, hr0, he⟩ := batch_min_stars_attained _ hne hb2
  obtain ⟨-, h1, h2⟩ := run_batch_mem_between pop m c r0 hr0
  omega

lemma run_batch_minb_gt (pop : List SRepo) (m : Nat)
    (hb : ∀ x ∈ pop, x.stars < 999999999)
    (hne : run_batch pop m none ≠ []) :
    m < batch_min_stars (run_batch pop m none) := by
  have hb2 : ∀ x ∈ run_batch pop m none, x.stars < 999999999 :=
    fun x hx => hb x (run_batch_mem_gt pop m x hx).1
  obtain ⟨r0, hr0, he⟩ := batch_min_stars_attained _ hne hb2
  obtain ⟨-, h1⟩ := run_batch_mem_gt pop m r0 hr0
  omega

lemma max_stars_le (pop : List SRepo) (r : SRepo) (h : r ∈ pop) :
    r.stars ≤ max_stars pop := by
  induction pop with
  | nil => cases h
  | cons x rest ih =>
    rw [max_stars, List.foldr_cons, ← max_stars]
    rcases List.mem_cons.mp h with he | hm
    · subst he
      exact Nat.le_max_left _ _
    · exact Nat.le_trans (ih hm) (Nat.le_max_right _ _)

lemma step_continue_stop (m c : Nat) (st : Storage) (h : c < m) :
    step_continue m c st = .stop st := by
  rw [step_continue, if_pos h]

lemma step_continue_next (m c : Nat) (st : Storage) (h : ¬ c < m) :
    step_continue m c st = .next c st := by
  rw [step_continue, if_neg h]

lemma step_continue_pred_stop (m v : Nat) (st : Storage) (h : v ≤ m) :
    step_continue_pred m v st = .stop st := by
  rw [step_continue_pred, if_pos h]

lemma step_continue_pred_next (m v : Nat) (st : Storage) (h : ¬ v ≤ m) :
    step_continue_pred m v st = .next (v - 1) st := by
  rw [step_continue_pred, if_neg h]

lemma run_step_stop_empty (pop : List SRepo) (m now sf : Nat) (cur : Option Nat)
    (st : Storage) (h0 : (run_batch pop m cur).length = 0) :
    run_step pop m now sf cur st = .stop (save_all st (run_batch pop m cur)) := by
  simp only [run_step]
  rw [if_pos h0]

lemma run_step_short_none (pop : List SRepo) (m now sf : Nat) (st : Storage)
    (h0 : (run_batch pop m none).length ≠ 0)
    (h1 : (run_batch pop m none).length < 1000) :
    run_step pop m now sf none st = .stop (save_all st (run_batch pop m none)) := by
  simp only [run_step]
  rw [if_neg h0, if_pos h1]

lemma run_step_short_floor (pop : List SRepo) (m now sf c : Nat) (st : Storage)
    (h0 : (run_batch pop m (some c)).length ≠ 0)
    (h1 : (run_batch pop m (some c)).length < 1000)
    (h2 : batch_min_stars (run_batch pop m (some c)) ≤ m) :
    run_step pop m now sf (some c) st =
      .stop (save_all st (run_batch pop m (some c))) := by
  simp only [run_step]
  rw [if_neg h0, if_pos h1]
  rw [if_pos h2]

lemma run_step_short_desc (pop : List SRepo) (m now sf c : Nat) (st : Storage)
    (h0 : (run_batch pop m (some c)).length ≠ 0)
    (h1 : (run_batch pop m (some c)).length < 1000)
    (h2 : ¬ batch_min_stars (run_batch pop m (some c)) ≤ m) :
    run_step pop m now sf (some c) st =
      step_continue_pred m (batch_min_stars (run_batch pop m (some c)))
        (save_all st (run_batch pop m (some c))) := by
  simp only [run_step]
  rw [if_neg h0, if_pos h1]
  rw [if_neg h2]

lemma run_step_wall (pop : List SRepo) (m now sf c : Nat) (st : Storage)
    (h0 : (run_batch pop m (some c)).length ≠ 0)
    (h1 : ¬ (run_batch pop m (some c)).length < 1000)
    (h2 : batch_min_stars (run_batch pop m (some c)) = c) :
    run_step pop m now sf (some c) st =
      step_continue_pred m (batch_min_stars (run_batch pop m (some c)))
        (time_slice pop (batch_min_stars (run_batch pop m (some c))) sf t2008 now
          (save_all st (run_batch pop m (some c)))) := by
  simp only [run_step]
  rw [if_neg h0, if_neg h1]
  rw [if_pos h2]

lemma run_step_full_desc (pop : List SRepo) (m now sf c : Nat) (st : Storage)
    (h0 : (run_batch pop m (some c)).length ≠ 0)
    (h1 : ¬ (run_batch pop m (some c)).length < 1000)
    (h2 : batch_min_stars (run_batch pop m (some c)) ≠ c) :
    run_step pop m now sf (some c) st =
      step_continue m (batch_min_stars (run_batch pop m (some c)))
        (save_all st (run_batch pop m (some c))) := by
  simp only [run_step]
  rw [if_neg h0, if_neg h1]
  rw [if_neg h2]

lemma run_step_full_none (pop : List SRepo) (m now sf : Nat) (st : Storage)
    (h0 : (run_batch pop m none).length ≠ 0)
    (h1 : ¬ (run_batch pop m none).length < 1000) :
    run_step pop m now sf none st =
      step_continue m (batch_min_stars (run_batch pop m none))
        (save_all st (run_batch pop m none)) := by
  simp only [run_step]
  rw [if_neg h0, if_neg h1]

lemma run_loop_succ_stop (pop : List SRepo) (m now sf f : Nat)
    (cur : Option Nat) (st st1 : Storage)
    (h : run_step pop m now sf cur st = .stop st1) :
    run_loop pop m now sf (f + 1) cur st = st1 := by
  rw [run_loop, h]

lemma run_loop_succ_next (pop : List SRepo) (m now sf f : Nat)
    (cur : Option Nat) (st st1 : Storage) (c2 : Nat)
    (h : run_step pop m now sf cur st = .next c2 st1) :
    run_loop pop m now sf (f + 1) cur st =
      run_loop pop m now sf f (some c2) st1 := by
  rw [run_loop, h]

lemma run_loop_exact (pop : List SRepo) (min_stars now slice_fuel : Nat)
    (hb : ∀ x ∈ pop, x.stars < 999999999)
    (hdates : ∀ x ∈ pop, t2008 ≤ x.created ∧ x.created ≤ now)
    (hnow : t2008 ≤ now)
    (hdense : ∀ x ∈ pop, pop.countP
      (fun y => y.stars == x.stars && y.created_day == x.created_day) ≤ 999)
    (hsf : now + 1 ≤ slice_fuel) :
    ∀ (fuel c : Nat) (st : Storage), c + 2 ≤ fuel → min_stars ≤ c → st.Wf →
      (∀ x ∈ pop, c < x.stars → x.id ∈ st.visited_ids) →
      (∀ i ∈ st.visited_ids, ∃ x ∈ pop, x.id = i ∧ min_stars ≤ x.stars) →
      (run_loop pop min_stars now slice_fuel fuel (some c) st).Wf ∧
      ∀ i : Nat,
        i ∈ (run_loop pop min_stars now slice_fuel fuel (some c) st).visited_ids
          ↔ ∃ x ∈ pop, x.id = i ∧ min_stars ≤ x.stars := by
  intro fuel
  induction fuel with
  | zero => intro c st hf; omega
  | succ f ih =>
    intro c st hf hmc hwf hcov hbound
    by_cases h0 : (run_batch pop min_stars (some c)).length = 0
    · -- empty window: the whole range [min_stars, c] holds no repository
      rw [run_loop_succ_stop pop min_stars now slice_fuel f (some c) st _
        (run_step_stop_empty pop min_stars now slice_fuel (some c) st h0)]
      have hbe : run_batch pop min_stars (some c) = [] :=
        List.length_eq_zero.mp h0
      rw [hbe]
      simp only [save_all, List.foldl_nil]
      refine ⟨hwf, fun i => ?_⟩
      constructor
      · exact fun h => hbound i h
      · rintro ⟨x, hx, hid, hxs⟩
        by_cases hxc : c < x.stars
        · subst hid
          exact hcov x hx hxc
        · exact (run_batch_empty pop min_stars (some c) h0 x hx
            ((matches_between min_stars c x).mpr ⟨hxs, by omega⟩)).elim
    · by_cases h1 : (run_batch pop min_stars (some c)).length < 1000
      · -- short batch: every repository in [min_stars, c] was fetched
        have hwf1 : (save_all st (run_batch pop min_stars (some c))).Wf :=
          save_all_wf _ _ hwf
        have hge : ∀ i : Nat,
            i ∈ (save_all st (run_batch pop min_stars (some c))).visited_ids ↔
              ∃ x ∈ pop, x.id = i ∧ min_stars ≤ x.stars := by
          intro i
          rw [save_all_visited]
          constructor
          · rintro (h | h)
            · exact hbound i h
            · obtain ⟨x, hxb, hxid⟩ := List.mem_map.mp h
              obtain ⟨hxp, hx1, -⟩ := run_batch_mem_between pop min_stars c x hxb
              exact ⟨x, hxp, hxid, hx1⟩
          · rintro ⟨x, hx, hid, hxs⟩
            by_cases hxc : c < x.stars
            · subst hid
              exact Or.inl (hcov x hx hxc)
            · subst hid
              exact Or.inr (List.mem_map_of_mem SRepo.id
                (run_batch_short_all pop min_stars (some c) h1 x hx
                  ((matches_between min_stars c x).mpr ⟨hxs, by omega⟩)))
        by_cases h2 : batch_min_stars (run_batch pop min_stars (some c)) ≤ min_stars
        · rw [run_loop_succ_stop pop min_stars now slice_fuel f (some c) st _
            (run_step_short_floor pop min_stars now slice_fuel c st h0 h1 h2)]
          exact ⟨hwf1, hge⟩
        · have hne : run_batch pop min_stars (some c) ≠ [] := fun he =>
            h0 (by rw [he]; rfl)
          obtain ⟨hminb1, hminb2⟩ := run_batch_minb_between pop min_stars c hb hne
          have hstep := run_step_short_desc pop min_stars now slice_fuel c st h0 h1 h2
          rw [step_continue_pred_next _ _ _ h2] at hstep
          rw [run_loop_succ_next pop min_stars now slice_fuel f (some c) st _ _ hstep]
          have hfu : batch_min_stars (run_batch pop min_stars (some c)) - 1 + 2 ≤ f := by
            omega
          have hml : min_stars ≤ batch_min_stars (run_batch pop min_stars (some c)) - 1 := by
            omega
          refine ih (batch_min_stars (run_batch pop min_stars (some c)) - 1) _
            hfu hml hwf1 ?_ ?_
          · intro x hx hxgt
            by_cases hxc : c < x.stars
            · exact save_all_mono _ _ _ (hcov x hx hxc)
            · refine (save_all_visited _ _ _).mpr (Or.inr
                (List.mem_map_of_mem SRepo.id
                  (run_batch_short_all pop min_stars (some c) h1 x hx
                    ((matches_between min_stars c x).mpr ⟨by omega, by omega⟩))))
          · intro i hi
            rcases (save_all_visited _ _ _).mp hi with h | h
            · exact hbound i h
            · obtain ⟨x, hxb, hxid⟩ := List.mem_map.mp h
              obtain ⟨hxp, hx1, -⟩ := run_batch_mem_between pop min_stars c x hxb
              exact ⟨x, hxp, hxid, hx1⟩
      · -- a full batch of exactly 1000
        have hne : run_batch pop min_stars (some c) ≠ [] := fun he =>
          h0 (by rw [he]; rfl)
        obtain ⟨hminb1, hminb2⟩ := run_batch_minb_between pop min_stars c hb hne
        have hwf1 : (save_all st (run_batch pop min_stars (some c))).Wf :=
          save_all_wf _ _ hwf
        have hbound1 : ∀ i ∈ (save_all st (run_batch pop min_stars (some c))).visited_ids,
            ∃ x ∈ pop, x.id = i ∧ min_stars ≤ x.stars := by
          intro i hi
          rcases (save_all_visited _ _ _).mp hi with h | h
          · exact hbound i h
          · obtain ⟨x, hxb, hxid⟩ := List.mem_map.mp h
            obtain ⟨hxp, hx1, -⟩ := run_batch_mem_between pop min_stars c x hxb
            exact ⟨x, hxp, hxid, hx1⟩
        by_cases h3 : batch_min_stars (run_batch pop min_stars (some c)) = c
        · -- dense wall: time slicing covers the whole star value
          have hcomp : ∀ x ∈ pop,
              x.stars = batch_min_stars (run_batch pop min_stars (some c)) →
              x.id ∈ (time_slice pop
                (batch_min_stars (run_batch pop min_stars (some c))) slice_fuel
                t2008 now (save_all st (run_batch pop min_stars (some c)))).visited_ids := by
            intro x hx hxs
            refine time_slice_complete pop _ hdense slice_fuel t2008 now _ hnow
              (by omega) x hx hxs ?_ ?_
            · exact Nat.div_le_div_right (hdates x hx).1
            · exact Nat.div_le_div_right (hdates x hx).2
          have hwf2 : (time_slice pop
              (batch_min_stars (run_batch pop min_stars (some c))) slice_fuel
              t2008 now (save_all st (run_batch pop min_stars (some c)))).Wf :=
            time_slice_wf _ _ _ _ _ _ hwf1
          have hbound2 : ∀ i ∈ (time_slice pop
              (batch_min_stars (run_batch pop min_stars (some c))) slice_fuel
              t2008 now (save_all st (run_batch pop min_stars (some c)))).visited_ids,
              ∃ x ∈ pop, x.id = i ∧ min_stars ≤ x.stars := by
            intro i hi
            rcases time_slice_sub pop _ _ _ _ _ _ hi with h | ⟨r, hrp, hrid, hrs⟩
            · exact hbound1 i h
            · exact ⟨r, hrp, hrid, by omega⟩
          have hstep := run_step_wall pop min_stars now slice_fuel c st h0 h1 h3
          by_cases h4 : batch_min_stars (run_batch pop min_stars (some c)) ≤ min_stars
          · rw [step_continue_pred_stop _ _ _ h4] at hstep
            rw [run_loop_succ_stop pop min_stars now slice_fuel f (some c) st _ hstep]
            refine ⟨hwf2, fun i => ⟨fun h => hbound2 i h, ?_⟩⟩
            rintro ⟨x, hx, hid, hxs⟩
            subst hid
            by_cases hxc : c < x.stars
            · exact time_slice_mono _ _ _ _ _ _ _
                (save_all_mono _ _ _ (hcov x hx hxc))
            · refine hcomp x hx ?_
              rw [h3]
              rw [h3] at h4
              omega
          · rw [step_continue_pred_next _ _ _ h4] at hstep
            rw [run_loop_succ_next pop min_stars now slice_fuel f (some c) st _ _ hstep]
            have hfu : batch_min_stars (run_batch pop min_stars (some c)) - 1 + 2 ≤ f := by
              rw [h3]
              rw [h3] at h4
              omega
            have hml : min_stars ≤ batch_min_stars (run_batch pop min_stars (some c)) - 1 := by
              rw [h3]
              rw [h3] at h4
              omega
            refine ih (batch_min_stars (run_batch pop min_stars (some c)) - 1) _
              hfu hml hwf2 ?_ hbound2
            intro x hx hxgt
            by_cases hxc : c < x.stars
            · exact time_slice_mono _ _ _ _ _ _ _
                (save_all_mono _ _ _ (hcov x hx hxc))
            · refine hcomp x hx ?_
              rw [h3]
              rw [h3] at hxgt h4
              omega
        · -- full batch, no wall: descend to the batch minimum (inclusive)

          have hlt : batch_min_stars (run_batch pop min_stars (some c)) < c :=
            lt_of_le_of_ne hminb2 h3
          have hnotlt :
              ¬ (batch_min_stars (run_batch pop min_stars (some c)) < min_stars) := by
            omega
          have hstep := run_step_full_desc pop min_stars now slice_fuel c st h0 h1 h3
          rw [step_continue_next _ _ _ hnotlt] at hstep
          rw [run_loop_succ_next pop min_stars now slice_fuel f (some c) st _ _ hstep]
          have hfu : batch_min_stars (run_batch pop min_stars (some c)) + 2 ≤ f := by
            omega
          have hml : min_stars ≤ batch_min_stars (run_batch pop min_stars (some c)) := by
            omega
          refine ih (batch_min_stars (run_batch pop min_stars (some c))) _
            hfu hml hwf1 ?_ hbound1
          intro x hx hxgt
          by_cases hxc : c < x.stars
          · exact save_all_mono _ _ _ (hcov x hx hxc)
          · refine (save_all_visited _ _ _).mpr (Or.inr
              (List.mem_map_of_mem SRepo.id
                (run_batch_cap pop min_stars (some c) hb h1 x hx
                  ((matches_between min_stars c x).mpr ⟨by omega, by omega⟩) hxgt)))

lemma countP_gt (pop : List SRepo) (m : Nat) :
    pop.countP (SRepo.matches (.gt m) none) =
      pop.countP (fun x => decide (m < x.stars)) := by
  have he : ∀ y : SRepo, SRepo.matches (.gt m) none y = decide (m < y.stars) := by
    intro y
    by_cases h : m < y.stars
    · rw [(matches_gt m y).mpr h, decide_eq_true h]
    · cases hcase : SRepo.matches (.gt m) none y with
      | false => rw [decide_eq_false h]
      | true => exact absurd ((matches_gt m y).mp hcase) h
  rw [show (SRepo.matches (.gt m) none) = (fun x => decide (m < x.stars)) from
    funext he]

/-- C1. The crawler's run loop, on a deterministic synthetic search source,
saves a duplicate-free set of repository ids, and the dense-wall iteration
runs creation-date time slicing over `[2008-01-01, now]` before the ceiling
advances to `value - 1` — but the saved set is NOT always
`\x7b stars ≥ minStars \x7d`: the initial unbounded query is the strict
`stars:>min_stars`, so when it returns fewer than 1000 results the loop
breaks at once and repositories with exactly `min_stars` stars are never
fetched. The exact result: if fewer than 1000 population members have
`min_stars < stars` the crawl saves exactly `\x7b stars > minStars \x7d`,
otherwise the descent reaches the inclusive windows and saves exactly
`\x7b stars ≥ minStars \x7d`. (Hypotheses: star counts below the `999999999`
sentinel; creation dates inside `[2008-01-01, now]`; fewer than 1000
repositories per (stars, creation day) class so time slicing can separate
them; enough loop fuel and slice fuel.) -/
theorem search_star_descent_coverage
    (pop : List SRepo) (min_stars now outer_fuel slice_fuel : Nat)
    (hb : ∀ x ∈ pop, x.stars < 999999999)
    (hdates : ∀ x ∈ pop, t2008 ≤ x.created ∧ x.created ≤ now)
    (hnow : t2008 ≤ now)
    (hdense : ∀ x ∈ pop, pop.countP
      (fun y => y.stars == x.stars && y.created_day == x.created_day) ≤ 999)
    (hof : max_stars pop + 3 ≤ outer_fuel)
    (hsf : now + 1 ≤ slice_fuel) :
    ((search_run pop min_stars now outer_fuel slice_fuel
        Storage.empty).file.map Record.id).Nodup ∧
    (if pop.countP (fun x => decide (min_stars < x.stars)) < 1000 then
      ∀ i : Nat,
        i ∈ (search_run pop min_stars now outer_fuel slice_fuel
            Storage.empty).file.map Record.id ↔
          ∃ x ∈ pop, x.id = i ∧ min_stars < x.stars
    else
      ∀ i : Nat,
        i ∈ (search_run pop min_stars now outer_fuel slice_fuel
            Storage.empty).file.map Record.id ↔
          ∃ x ∈ pop, x.id = i ∧ min_stars ≤ x.stars) ∧
    ∀ (c : Nat) (st : Storage),
      ¬ (run_batch pop min_stars (some c)).length < 1000 →
      batch_min_stars (run_batch pop min_stars (some c)) = c →
      run_step pop min_stars now slice_fuel (some c) st =
        step_continue_pred min_stars c
          (time_slice pop c slice_fuel t2008 now
            (save_all st (run_batch pop min_stars (some c)))) := by
  obtain ⟨f, rfl⟩ : ∃ f, outer_fuel = f + 1 := ⟨outer_fuel - 1, by omega⟩
  have hrun : search_run pop min_stars now (f + 1) slice_fuel Storage.empty =
      run_loop pop min_stars now slice_fuel (f + 1) none Storage.empty := rfl
  have hsr : (search_results pop (.gt min_stars) none).length =
      pop.countP (fun x => decide (min_stars < x.stars)) := by
    rw [length_search_results, countP_gt]
  have hlen : (run_batch pop min_stars none).length =
      min 1000 (search_results pop (.gt min_stars) none).length := by
    rw [run_batch_none_eq, List.length_take]
  have hkey : (run_loop pop min_stars now slice_fuel (f + 1) none
        Storage.empty).Wf ∧
      (if pop.countP (fun x => decide (min_stars < x.stars)) < 1000 then
        ∀ i : Nat,
          i ∈ (run_loop pop min_stars now slice_fuel (f + 1) none
              Storage.empty).visited_ids ↔
            ∃ x ∈ pop, x.id = i ∧ min_stars < x.stars
      else
        ∀ i : Nat,
          i ∈ (run_loop pop min_stars now slice_fuel (f + 1) none
              Storage.empty).visited_ids ↔
            ∃ x ∈ pop, x.id = i ∧ min_stars ≤ x.stars) := by
    by_cases h0 : (run_batch pop min_stars none).length = 0
    · -- nothing exceeds the threshold at all
      have hA : pop.countP (fun x => decide (min_stars < x.stars)) < 1000 := by
        omega
      rw [run_loop_succ_stop pop min_stars now slice_fuel f none Storage.empty _
        (run_step_stop_empty pop min_stars now slice_fuel none Storage.empty h0)]
      rw [List.length_eq_zero.mp h0]
      simp only [save_all, List.foldl_nil]
      rw [if_pos hA]
      refine ⟨Storage.empty_wf, fun i => ?_⟩
      constructor
      · intro h
        simp [Storage.empty] at h
      · rintro ⟨x, hx, hid, hxs⟩
        exact (run_batch_empty pop min_stars none h0 x hx
          ((matches_gt _ _).mpr hxs)).elim
    · by_cases h1 : (run_batch pop min_stars none).length < 1000
      · -- a short first batch: the strict query got everything it will get
        have hA : pop.countP (fun x => decide (min_stars < x.stars)) < 1000 := by
          omega
        rw [run_loop_succ_stop pop min_stars now slice_fuel f none Storage.empty _
          (run_step_short_none pop min_stars now slice_fuel Storage.empty h0 h1)]
        rw [if_pos hA]
        refine ⟨save_all_wf _ _ Storage.empty_wf, fun i => ?_⟩
        rw [save_all_visited]
        constructor
        · rintro (h | h)
          · simp [Storage.empty] at h
          · obtain ⟨x, hxb, hxid⟩ := List.mem_map.mp h
            obtain ⟨hxp, hx1⟩ := run_batch_mem_gt pop min_stars x hxb
            exact ⟨x, hxp, hxid, hx1⟩
        · rintro ⟨x, hx, hid, hxs⟩
          subst hid
          exact Or.inr (List.mem_map_of_mem SRepo.id
            (run_batch_short_all pop min_stars none h1 x hx
              ((matches_gt _ _).mpr hxs)))
      · -- a full first batch: descend with the loop invariant
        have hA : ¬ pop.countP (fun x => decide (min_stars < x.stars)) < 1000 := by
          omega
        have hne : run_batch pop min_stars none ≠ [] := fun he =>
          h0 (by rw [he]; rfl)
        have hminb := run_batch_minb_gt pop min_stars hb hne
        have hstep := run_step_full_none pop min_stars now slice_fuel
          Storage.empty h0 h1
        rw [step_continue_next _ _ _ (by omega)] at hstep
        rw [run_loop_succ_next pop min_stars now slice_fuel f none
          Storage.empty _ _ hstep]
        rw [if_neg hA]
        obtain ⟨r0, hr0b, hr0e⟩ := batch_min_stars_attained
          (run_batch pop min_stars none) hne
          (fun r hrb => hb r (run_batch_mem_gt pop min_stars r hrb).1)
        have hmax := max_stars_le pop r0 (run_batch_mem_gt pop min_stars r0 hr0b).1
        refine run_loop_exact pop min_stars now slice_fuel hb hdates hnow hdense
          hsf f (batch_min_stars (run_batch pop min_stars none))
          (save_all Storage.empty (run_batch pop min_stars none))
          (by omega) (by omega) (save_all_wf _ _ Storage.empty_wf) ?_ ?_
        · intro x hx hxgt
          exact (save_all_visited _ _ _).mpr (Or.inr (List.mem_map_of_mem SRepo.id
            (run_batch_cap pop min_stars none hb h1 x hx
              ((matches_gt _ _).mpr (by omega)) hxgt)))
        · intro i hi
          rcases (save_all_visited _ _ _).mp hi with h | h
          · simp [Storage.empty] at h
          · obtain ⟨x, hxb, hxid⟩ := List.mem_map.mp h
            obtain ⟨hxp, hx1⟩ := run_batch_mem_gt pop min_stars x hxb
            exact ⟨x, hxp, hxid, by omega⟩
  obtain ⟨hwfL, hiff⟩ := hkey
  refine ⟨by rw [hrun]; exact hwfL.1, ?_, ?_⟩
  · by_cases hA : pop.countP (fun x => decide (min_stars < x.stars)) < 1000
    · rw [if_pos hA] at hiff ⊢
      rw [hrun]
      intro i
      exact (hwfL.2 i).trans (hiff i)
    · rw [if_neg hA] at hiff ⊢
      rw [hrun]
      intro i
      exact (hwfL.2 i).trans (hiff i)
  · intro c st hfull hwall
    rw [run_step_wall pop min_stars now slice_fuel c st (by omega) hfull hwall,
      hwall]

/-- C1 counterexample to the claim as stated: the population holds one
repository with exactly `minStars = 5` stars — it matches `stars ≥ minStars`
— yet the crawl output is empty. The initial unbounded query is the strict
`stars:>5`, it returns fewer than 1000 results (none), and line 104 breaks
the loop before any inclusive window is ever issued. -/
theorem search_exact_min_omitted_counterexample :
    (∃ x ∈ [SRepo.mk 1 5 0], x.id = 1 ∧ 5 ≤ x.stars) ∧
    (search_run [SRepo.mk 1 5 0] 5 0 4 4 Storage.empty).file.map Record.id
      = [] := by
  exact ⟨⟨SRepo.mk 1 5 0, by simp, rfl, by decide⟩, rfl⟩

/-- Witness instantiating `search_star_descent_coverage` on a concrete
one-repository population. -/
theorem search_star_descent_coverage_witness :
    ((search_run [SRepo.mk 1 6 t2008] 5 t2008 10 (t2008 + 1)
        Storage.empty).file.map Record.id).Nodup ∧
    (if ([SRepo.mk 1 6 t2008]).countP (fun x => decide (5 < x.stars)) < 1000 then
      ∀ i : Nat,
        i ∈ (search_run [SRepo.mk 1 6 t2008] 5 t2008 10 (t2008 + 1)
            Storage.empty).file.map Record.id ↔
          ∃ x ∈ [SRepo.mk 1 6 t2008], x.id = i ∧ 5 < x.stars
    else
      ∀ i : Nat,
        i ∈ (search_run [SRepo.mk 1 6 t2008] 5 t2008 10 (t2008 + 1)
            Storage.empty).file.map Record.id ↔
          ∃ x ∈ [SRepo.mk 1 6 t2008], x.id = i ∧ 5 ≤ x.stars) ∧
    ∀ (c : Nat) (st : Storage),
      ¬ (run_batch [SRepo.mk 1 6 t2008] 5 (some c)).length < 1000 →
      batch_min_stars (run_batch [SRepo.mk 1 6 t2008] 5 (some c)) = c →
      run_step [SRepo.mk 1 6 t2008] 5 t2008 (t2008 + 1) (some c) st =
        step_continue_pred 5 c
          (time_slice [SRepo.mk 1 6 t2008] c (t2008 + 1) t2008 t2008
            (save_all st (run_batch [SRepo.mk 1 6 t2008] 5 (some c)))) :=
  search_star_descent_coverage [SRepo.mk 1 6 t2008] 5 t2008 10 (t2008 + 1)
    (by decide) (by decide) (by decide) (by decide) (by decide) (by decide)

end ChatSBOM